import Mathlib

/-!
Verification of the specification of the `DiGyt/mne-python` repository
fragment against its source code.

Two independent subsystems are embedded:

* `mne/source_tfr.py` — the `SourceTFR` container with its lazy
  kernel/sensor-data factorization, cropping and resampling.  Numpy
  arrays are embedded as `Tensor` (a shape together with the row-major
  flat list of entries); float arithmetic is embedded as exact rational
  arithmetic over `ℚ`.  The Python object is embedded as a record, and
  every mutating method/property becomes an explicit state-passing
  function (`Except String` models a raised exception; the returned
  state models the mutated `self`).
* `mne/io/curry/curry.py` — the START_LIST/END_LIST block parser
  (`_read_curry_lines`), the parameter scan of `_read_curry_info`, and
  `read_events_curry`.  A text file is embedded as the list of lines
  produced by Python file iteration (each line keeps its trailing
  newline character, except possibly the last line of the file).

Helper primitives from outside the three source files (numpy's
`tensordot`, boolean trailing-axis indexing, `mne.utils._time_mask`,
the resampling filter) are embedded from their documented semantics
and marked `Modelled from the spec:` where the repository's own code
is not under `src/`.
-/

deriving instance DecidableEq for Except

namespace MneSpec

/-! ## Executable rational arithmetic

Mathlib seals the arithmetic of `ℚ` against definitional unfolding, so
terms built with `+`, `*`, `/`, `≤` on `ℚ` cannot be evaluated by
`decide`/`rfl`.  The embedding therefore uses the following thin
executable wrappers, built on `mkRat` (which does reduce); each is
proved equal to the corresponding standard operation in the theorem
section, so every statement can still be phrased in the standard
vocabulary. -/

def qadd (a b : ℚ) : ℚ := mkRat (a.num * b.den + b.num * a.den) (a.den * b.den)

def qmul (a b : ℚ) : ℚ := mkRat (a.num * b.num) (a.den * b.den)

def qinv (b : ℚ) : ℚ :=
  if b.num < 0 then mkRat (-(b.den : ℤ)) b.num.natAbs
  else mkRat (b.den : ℤ) b.num.natAbs

def qdiv (a b : ℚ) : ℚ := qmul a (qinv b)

def qle (a b : ℚ) : Bool := decide (a.num * (b.den : ℤ) ≤ b.num * (a.den : ℤ))

def qnat (n : ℕ) : ℚ := mkRat (Int.ofNat n) 1

def qsum (l : List ℚ) : ℚ := l.foldr qadd 0

/-! ## Tensors (embedding of numpy ndarrays)

A numpy array is embedded as its shape together with the row-major
(C-order) flat list of entries.  `entries.length = shape.prod` holds
for every array numpy can actually produce; definitions below use
`List.getD _ _ 0` so they are total regardless. -/

structure Tensor where
  shape : List ℕ
  entries : List ℚ
deriving DecidableEq, Repr

def Tensor.ndim (t : Tensor) : ℕ := t.shape.length

/-- The empty tensor, used as the junk default where the Python code
would dereference `None` (states unreachable through the public API). -/
def emptyT : Tensor := ⟨[], []⟩

/-- Row-major flat position of a multi-index `ix` in an array of shape
`ds` (numpy C-order ravel). -/
def ravel : List ℕ → List ℕ → ℕ
  | i :: ix, _ :: ds => i * ds.prod + ravel ix ds
  | _, _ => 0

/-- Predicate `validIxB ix ds` : `ix` is a multi-index of the same length as the
shape `ds` with every coordinate in range. -/
def validIxB : List ℕ → List ℕ → Bool
  | [], [] => true
  | i :: ix, d :: ds => decide (i < d) && validIxB ix ds
  | _, _ => false

/-- Entry of a tensor at a multi-index (row-major lookup). -/
def Tensor.get (t : Tensor) (ix : List ℕ) : ℚ :=
  t.entries.getD (ravel ix t.shape) 0

/-- Modelled from the spec: numpy's `np.tensordot(kernel, sens_data,
axes=([-1], [0]))` (an external library primitive, not part of this
repository).  For `kernel` of shape `[V, S]` and `sens_data` of shape
`S :: rest` it produces the shape `V :: rest` array whose entry at
`(v, r)` is `∑ s, kernel[v, s] * sens_data[s, r]`, laid out row-major. -/
def tensordot2 (k x : Tensor) : Tensor :=
  let S := k.shape.getD 1 0
  let rest := x.shape.tail
  let R := rest.prod
  let V := k.shape.headD 0
  ⟨V :: rest,
   (List.range (V * R)).map (fun i =>
     qsum ((List.range S).map (fun s =>
        qmul (k.entries.getD (i / R * S + s) 0) (x.entries.getD (s * R + i % R) 0))))⟩

/-- One row-major row filtered by a boolean mask (numpy boolean
indexing along one axis, applied to a single row). -/
def sliceRow (row : List ℚ) (mask : List Bool) : List ℚ :=
  (row.zip mask).filterMap (fun p => if p.2 then some p.1 else none)

/-- Last dimension of a shape (`shape[-1]`). -/
def lastDim (sh : List ℕ) : ℕ := sh.getLastD 0

/-- Modelled from the spec: numpy boolean indexing `t[..., mask]` (an
external library primitive), keeping along the trailing axis exactly
the positions where `mask` is `true`.  The caller is responsible for
`mask.length` matching the trailing axis length (numpy raises
otherwise; the containing operations below check this). -/
def sliceLast (t : Tensor) (mask : List Bool) : Tensor :=
  let n := lastDim t.shape
  let rows := t.entries.length / n
  ⟨t.shape.dropLast ++ [mask.count true],
   ((List.range rows).map (fun i =>
      sliceRow ((t.entries.drop (i * n)).take n) mask)).flatten⟩

/-! ## The SourceTFR container (`mne/source_tfr.py`)

Fields mirror the Python instance attributes.  `freqs`, `subject` and
`verbose` are opaque metadata never validated against the data nor
read by any operation under verification; they are omitted from the
record.  `_src_type` is the constant string `'SourceTFR'` and
`_data_ndim` the constant `len(dims)`; both are derivable and omitted. -/

/-- The `vertices` argument: a single index array (`np.ndarray`) or a
list of per-source-space index arrays. -/
def VertArg := (List ℤ) ⊕ (List (List ℤ))

deriving instance DecidableEq, Repr for VertArg

/-- Total vertex count (`len(vertices)` resp. the sum of lengths),
as computed by the `data` setter of `source_tfr.py`. -/
def nVerts : VertArg → ℕ
  | .inl v => v.length
  | .inr vs => (vs.map List.length).sum

structure SourceTFR where
  _data : Option Tensor
  _kernel : Option Tensor
  _sens_data : Option Tensor
  _kernel_removed : Bool
  dims : List String
  vertices : VertArg
  method : Option String
  _tmin : ℚ
  _tstep : ℚ
  _times : List ℚ
deriving DecidableEq, Repr

/-- The two representational states of the container. -/
def Dense (s : SourceTFR) : Prop :=
  s._data.isSome = true ∧ s._kernel = none ∧ s._sens_data = none

def Factored (s : SourceTFR) : Prop :=
  s._data = none ∧ s._kernel.isSome = true ∧ s._sens_data.isSome = true

instance (s : SourceTFR) : Decidable (Dense s) := by
  unfold Dense; infer_instance

instance (s : SourceTFR) : Decidable (Factored s) := by
  unfold Factored; infer_instance

/-- The `SourceTFR.shape` property: in the factored state
`(kernel.shape[0],) + sens_data.shape[1:]`, otherwise `data.shape`.
(With `_data`, `_kernel` and `_sens_data` all `None` the Python
property would raise `AttributeError`; such states are unreachable
through the public API and the embedding returns the junk shape
`0 :: []` there.) -/
def SourceTFR.shape (s : SourceTFR) : List ℕ :=
  match s._data with
  | some d => d.shape
  | none =>
      ((s._kernel.getD emptyT).shape.headD 0) ::
        ((s._sens_data.getD emptyT).shape.tail)

/-- Embedding of `times = tmin + tstep * arange(n)` (`_update_times`). -/
def mkTimes (tmin tstep : ℚ) (n : ℕ) : List ℚ :=
  (List.range n).map (fun i => qadd tmin (qmul tstep (qnat i)))

/-- Embedding of `SourceTFR._update_times`. -/
def SourceTFR.updateTimes (s : SourceTFR) : SourceTFR :=
  { s with _times := mkTimes s._tmin s._tstep (lastDim s.shape) }

/-- Embedding of `SourceTFR._remove_kernel_sens_data_`.  (If exactly one of
`_kernel` / `_sens_data` were set, Python's `np.tensordot` would raise
on the `None` argument; such half-states are unreachable and the
embedding produces a junk tensordot with `emptyT` there.) -/
def SourceTFR.removeKernelSensData (s : SourceTFR) : SourceTFR :=
  if s._kernel.isSome || s._sens_data.isSome then
    { s with
      _kernel_removed := true,
      _data := some (tensordot2 (s._kernel.getD emptyT) (s._sens_data.getD emptyT)),
      _kernel := none,
      _sens_data := none }
  else s

/-- The `data` property getter: collapses the factored form on first
read, then returns `self._data` (which is still `None` exactly in the
unreachable nothing-set state).  The first component is the post-read
state of the container. -/
def SourceTFR.dataRead (s : SourceTFR) : SourceTFR × Option Tensor :=
  if s._data.isSome then (s, s._data)
  else
    let s' := s.removeKernelSensData
    (s', s'._data)

/-- The `data` property setter: checks the number of axes against the
existing data (when present) and the leading axis length against the
vertex count, then stores the array and recomputes `times`. -/
def SourceTFR.setData (s : SourceTFR) (v : Tensor) : Except String SourceTFR :=
  match s._data with
  | some d =>
    if v.ndim ≠ d.ndim then
      .error "Data array should have the same number of dimensions."
    else if v.shape.headD 0 ≠ nVerts s.vertices then
      .error "The first dimension of the data array must match the number of vertices."
    else
      .ok ({ s with _data := some v }).updateTimes
  | none =>
    if v.shape.headD 0 ≠ nVerts s.vertices then
      .error "The first dimension of the data array must match the number of vertices."
    else
      .ok ({ s with _data := some v }).updateTimes

/-- The `tmin` setter (stores the value unvalidated, recomputes
`times`; `float(value)` is the identity under the `ℚ` embedding). -/
def SourceTFR.setTmin (s : SourceTFR) (v : ℚ) : SourceTFR :=
  ({ s with _tmin := v }).updateTimes

/-- The `tstep` setter: rejects non-positive values, otherwise stores
the value and recomputes `times`. -/
def SourceTFR.setTstep (s : SourceTFR) (v : ℚ) : Except String SourceTFR :=
  if qle v 0 then .error ".tstep must be greater than 0."
  else .ok ({ s with _tstep := v }).updateTimes

/-- Modelled from the spec: `mne.utils._time_mask` is not under
`src/`; following the spec and the `crop` docstring it is embedded as
the boolean mask selecting the samples with `tmin ≤ t ≤ tmax`, where a
`None` bound defaults to the first resp. last present time.  (The real
helper additionally rounds the bounds at the sample rate; no claim
under verification depends on the boundary treatment.) -/
def timeMask (times : List ℚ) (tmin tmax : Option ℚ) : List Bool :=
  let lo := tmin.getD (times.headD 0)
  let hi := tmax.getD (times.getLastD 0)
  times.map (fun t => qle lo t && qle t hi)

/-- Index of the first retained sample (`np.where(mask)[0][0]`). -/
def firstTrue (mask : List Bool) : Option ℕ := mask.findIdx? (fun b => b)

/-- Embedding of `SourceTFR.crop`.  Errors model the exceptions Python would raise:
`sfreq = 1/tstep` with `tstep = 0` (`ZeroDivisionError`), an empty
mask (`IndexError` on `np.where(mask)[0][0]`), a mask whose length
does not match the trailing axis (numpy `IndexError`), and slicing a
`None` data array (`TypeError`).  On success the returned container is
the mutated `self` (the method returns `self` for chaining). -/
def SourceTFR.crop (s : SourceTFR) (tmin tmax : Option ℚ) : Except String SourceTFR :=
  if s._tstep = 0 then .error "ZeroDivisionError: float division by zero"
  else
    let mask := timeMask s._times tmin tmax
    match firstTrue mask with
    | none => .error "IndexError: index 0 is out of bounds"
    | some i =>
      let s1 := s.setTmin (s._times.getD i 0)
      if s1._kernel.isSome && s1._sens_data.isSome then
        let sd := s1._sens_data.getD emptyT
        if mask.length ≠ lastDim sd.shape then
          .error "IndexError: boolean index did not match"
        else
          .ok { s1 with _sens_data := some (sliceLast sd mask) }
      else
        match s1.dataRead with
        | (s2, some d) =>
          if mask.length ≠ lastDim d.shape then
            .error "IndexError: boolean index did not match"
          else
            s2.setData (sliceLast d mask)
        | (_, none) => .error "TypeError: data is None"

/-- Embedding of `SourceTFR.resample`.  The resampling filter itself lives outside
`src/`; per the spec it is a black-box primitive applied along the
trailing time axis, so it is taken as the parameter `prim` (arguments:
array, target rate, original rate).  The method first collapses the
factored form, reads `o_sfreq = 1/tstep`, assigns the resampled array
through the `data` setter, then assigns `tstep = 1/sfreq` through the
`tstep` setter. -/
def SourceTFR.resample (s : SourceTFR) (prim : Tensor → ℚ → ℚ → Tensor)
    (sfreq : ℚ) : Except String SourceTFR :=
  let s0 := s.removeKernelSensData
  if s0._tstep = 0 then .error "ZeroDivisionError: float division by zero"
  else
    let o := qdiv 1 s0._tstep
    match s0.dataRead with
    | (s1, some d) =>
      (s1.setData (prim d sfreq o)).bind (fun s2 =>
        if sfreq = 0 then .error "ZeroDivisionError: float division by zero"
        else s2.setTstep (qdiv 1 sfreq))
    | (_, none) => .error "TypeError: data is None"

/-! ### Construction (`SourceTFR.__init__` with `_prepare_data`) -/

/-- The `data` argument: a dense array or a `(kernel, sens_data)`
tuple.  (The Python length-2 check on the tuple is enforced by this
type.) -/
inductive TFRData
  | dense (d : Tensor)
  | factored (kernel sens : Tensor)

def validDimsList : List (List String) :=
  [["dipoles", "freqs", "times"],
   ["dipoles", "epochs", "freqs", "times"],
   ["dipoles", "orientations", "freqs", "times"],
   ["dipoles", "orientations", "epochs", "freqs", "times"]]

def validMethods : List (Option String) :=
  [some "morlet-power", some "multitaper-power", some "stockwell-power",
   some "morlet-itc", some "multitaper-itc", some "stockwell-itc", none]

/-- A strictly increasing integer sequence (the negation of
`np.any(np.diff(v) <= 0)`). -/
def strictlyIncB : List ℤ → Bool
  | a :: b :: rest => decide (a < b) && strictlyIncB (b :: rest)
  | _ => true

/-- The vertices-processing part of `_prepare_data`: a list must have
every member strictly increasing, the total count is accumulated, and
a singleton list collapses to its sole array. -/
def processVerts : VertArg → Except String (VertArg × ℕ)
  | .inl v => .ok (.inl v, v.length)
  | .inr vs =>
    if vs.all strictlyIncB then
      let n := (vs.map List.length).sum
      .ok (if vs.length = 1 then .inl (vs.headD []) else .inr vs, n)
    else .error "Vertices must be ordered in increasing order."

/-- Assembling the record at the end of `__init__` (note `_tmin` and
`_tstep` are stored directly, bypassing the validating setters; the
final step is `_update_times`). -/
def mkStfr (dat kern sens : Option Tensor) (dims : List String)
    (verts : VertArg) (method : Option String) (tmin tstep : ℚ) : SourceTFR :=
  ({ _data := dat, _kernel := kern, _sens_data := sens,
     _kernel_removed := false, dims := dims, vertices := verts,
     method := method, _tmin := tmin, _tstep := tstep,
     _times := [] } : SourceTFR).updateTimes

/-- Embedding of `SourceTFR.__init__`: validates `dims` and `method` against the
closed enumerations, then runs `_prepare_data` (factored-pair checks,
vertices processing, dense-array checks), then stores the fields. -/
def SourceTFR.init (dataArg : TFRData) (vertices : VertArg)
    (tmin tstep : ℚ) (dims : List String) (method : Option String) :
    Except String SourceTFR :=
  if validDimsList.all (fun v => v ≠ dims) then
    .error "Invalid value for the dims parameter."
  else if validMethods.all (fun m => m ≠ method) then
    .error "Invalid value for the method parameter."
  else
    match dataArg with
    | .factored k sd =>
      if k.shape.getD 1 0 ≠ sd.shape.headD 0 then
        .error "kernel and sens_data have invalid dimensions"
      else if sd.ndim ≠ dims.length then
        .error "The sensor data must have len(dims) dimensions"
      else if dims.contains "orientations" then
        .error "Multiple orientations are not supported for data=(kernel, sens_data)"
      else
        (processVerts vertices).map (fun pv =>
          mkStfr none (some k) (some sd) dims pv.1 method tmin tstep)
    | .dense d =>
      (processVerts vertices).bind (fun pv =>
        if d.shape.headD 0 ≠ pv.2 then
          .error "Number of vertices and stfr.shape must match"
        else if d.ndim ≠ dims.length then
          .error "Data must have len(dims) dimensions"
        else if dims.contains "orientations" && d.shape.getD 1 0 ≠ 3 then
          .error "If multiple orientations are defined, stfr.shape must be 3"
        else
          .ok (mkStfr (some d) none none dims pv.1 method tmin tstep))

/-! ## Curry file parsing (`mne/io/curry/curry.py`)

A file is embedded as the list of lines Python file iteration yields:
every line keeps its trailing `'\n'` except possibly the last one. -/

/-- Predicate `startsWithL pat l` : `pat` is a prefix of `l`.  This embeds
`re.match(pattern, line)` for the patterns the repository actually
passes (all are literal strings without regex metacharacters, and
`re.match` anchors at the start of the line only). -/
def startsWithL : List Char → List Char → Bool
  | [], _ => true
  | _ :: _, [] => false
  | p :: ps, c :: cs => p == c && startsWithL ps cs

/-- Predicate `containsSub l sub` : `sub` occurs as a contiguous substring of
`l` (Python's `sub in l`). -/
def containsSub : List Char → List Char → Bool
  | [], sub => sub.isEmpty
  | c :: rest, sub => startsWithL sub (c :: rest) || containsSub rest sub

/-- An extracted block entry: a plain line, or the tab-split fields of
a line that contained a tab. -/
inductive Entry
  | str (s : String)
  | fields (fs : List String)
deriving DecidableEq, Repr

/-- Embedding of `line.replace("\n", "")`. -/
def stripNL (l : String) : String := ⟨l.toList.filter (fun c => c ≠ '\n')⟩

/-- Embedding of `result.split("\t")`. -/
def splitTab (s : String) : List String :=
  (s.toList.splitOn '\t').map (fun cs => (⟨cs⟩ : String))

/-- The entry built from a saved line in `_read_curry_lines`: strip
the line terminator, then tab-split if a tab is present. -/
def mkEntry (line : String) : Entry :=
  let r := stripNL line
  if r.toList.contains '\t' then .fields (splitTab r) else .str r

/-- One pattern's state transition for one line of `_read_curry_lines`
(in source order: the END_LIST check, then the save-and-append check
skipping the bare `"\n"` line, then the START_LIST check). -/
def lineStep (p : String) (st : Bool × List Entry) (line : String) :
    Bool × List Entry :=
  let st1 := if startsWithL (p ++ " END_LIST").toList line.toList then
    (false, st.2) else st
  let st2 := if st1.1 && line != "\n" then
    (st1.1, st1.2 ++ [mkEntry line]) else st1
  if startsWithL (p ++ " START_LIST").toList line.toList then
    (true, st2.2) else st2

/-- The `data_dict[regex]` list produced by `_read_curry_lines` for
one pattern.  In the source the per-pattern flag `save_lines[regex]`
and list `data_dict[regex]` are read and written only inside the
branches guarded by that same `regex`, so the joint loop over all
patterns is the independent product of these per-pattern folds. -/
def readCurryLinesOne (lines : List String) (p : String) : List Entry :=
  (lines.foldl (lineStep p) (false, [])).2

/-- Embedding of `_read_curry_lines`: the full pattern-to-entries mapping. -/
def readCurryLines (lines : List String) (ps : List String) :
    List (String × List Entry) :=
  ps.map (fun p => (p, readCurryLinesOne lines p))

/-! ### The parameter scan of `_read_curry_info` -/

/-- The fourteen accepted key spellings; the first seven are the
required ones checked (in this order) after the scan. -/
def varNames : List String :=
  ["NumSamples", "NumChannels", "NumTrials", "SampleFreqHz",
   "TriggerOffsetUsec", "DataFormat", "SampleTimeUsec",
   "NUM_SAMPLES", "NUM_CHANNELS", "NUM_TRIALS", "SAMPLE_FREQ_HZ",
   "TRIGGER_OFFSET_USEC", "DATA_FORMAT", "SAMPLE_TIME_USEC"]

def requiredVars : List String := varNames.take 7

/-- Embedding of `line.replace(" ", "").replace("\n", "")`. -/
def cleanLine (l : String) : String :=
  ⟨l.toList.filter (fun c => c ≠ ' ' && c ≠ '\n')⟩

/-- Embedding of `var.lower()` (ASCII, as in the keys involved). -/
def toLowerStr (s : String) : String := ⟨s.toList.map Char.toLower⟩

/-- Embedding of `key.lower().replace("_", "")`. -/
def normKey (k : String) : String :=
  ⟨(k.toList.map Char.toLower).filter (fun c => c ≠ '_')⟩

/-- Embedding of `line.split("=")`. -/
def splitEq (l : String) : List String :=
  (l.toList.splitOn '=').map (fun cs => (⟨cs⟩ : String))

/-- Key-value store for `param_dict`.  New bindings are consed in
front and lookup takes the first match, so a later assignment to the
same key shadows the earlier one, exactly like the Python dict. -/
def Dict := List (String × String)

def dictInsert (k v : String) (d : Dict) : Dict := (k, v) :: d

def lookupD (d : Dict) (k : String) : Option String :=
  (d.find? (fun p => p.1 == k)).map (fun p => p.2)

inductive CurryErr
  | malformedLine (l : String)
  | missingVariable (v : String)
  | malformedValue (v : String)
deriving DecidableEq, Repr

/-- Does the line contain any of the fourteen key spellings as a
substring (`any(var_name in line for var_name in var_names)`)? -/
def containsVar (line : String) : Bool :=
  varNames.any (fun v => containsSub line.toList v.toList)

/-- Processing of one scanned line: a line containing a key spelling
is cleaned and split on `"="`; `key, val = ...` raises `ValueError`
unless exactly two parts result (modelled by `malformedLine`). -/
def scanStep (d : Dict) (line : String) : Except CurryErr Dict :=
  if containsVar line then
    match splitEq (cleanLine line) with
    | [k, v] => .ok (dictInsert (normKey k) v d)
    | _ => .error (.malformedLine line)
  else .ok d

/-- The three `"DEVICE_PARAMETERS" + CHANTYPES[type] + " START"`
markers, in the dict-iteration order meg, eeg, misc. -/
def deviceMarkers : List String :=
  ["DEVICE_PARAMETERS_MAG1 START", "DEVICE_PARAMETERS START",
   "DEVICE_PARAMETERS_OTHERS START"]

/-- How many device markers the line contains: for each one, the
source calls `next(fid)` and so consumes (and does not scan) one
following line. -/
def countDevice (line : String) : ℕ :=
  (deviceMarkers.filter (fun m => containsSub line.toList m.toList)).length

/-- Fuel-indexed scan loop (structural recursion so that concrete
scans evaluate definitionally; each step consumes at least the head
line, so fuel `lines.length` always suffices). -/
def scanParamsAux : ℕ → List String → Dict → Except CurryErr Dict
  | 0, _, d => .ok d
  | _ + 1, [], d => .ok d
  | fuel + 1, l :: rest, d =>
    match scanStep d l with
    | .error e => .error e
    | .ok d' => scanParamsAux fuel (rest.drop (countDevice l)) d'

/-- The scan loop of `_read_curry_info` over the parameter file
(`unit_dict`, populated from the consumed lines, feeds only channel
unit assembly, which no claim under verification touches). -/
def scanParams (lines : List String) (d : Dict) : Except CurryErr Dict :=
  scanParamsAux lines.length lines d

def natOfDigits (cs : List Char) : ℕ :=
  cs.foldl (fun a c => a * 10 + (c.toNat - 48)) 0

/-- Python `int(s)`, for the optional-sign decimal forms occurring in
curry files (no surrounding whitespace, no underscores). -/
def parseInt (s : String) : Option ℤ :=
  match s.toList with
  | '-' :: rest =>
    if !rest.isEmpty && rest.all Char.isDigit then
      some (-(natOfDigits rest : ℤ)) else none
  | '+' :: rest =>
    if !rest.isEmpty && rest.all Char.isDigit then
      some ((natOfDigits rest : ℤ)) else none
  | cs =>
    if !cs.isEmpty && cs.all Char.isDigit then
      some ((natOfDigits cs : ℤ)) else none

/-- Python `float(s)` as an exact rational, for the optional-sign
decimal forms occurring in curry files (exponent and special forms
are not needed by any claim). -/
def parseQ (s : String) : Option ℚ :=
  let sc : ℚ × List Char :=
    match s.toList with
    | '-' :: rest => (mkRat (-1) 1, rest)
    | '+' :: rest => (1, rest)
    | cs => (1, cs)
  match sc.2.splitOn '.' with
  | [ip] =>
    if !ip.isEmpty && ip.all Char.isDigit then
      some (qmul sc.1 (qnat (natOfDigits ip))) else none
  | [ip, fp] =>
    if ip.all Char.isDigit && fp.all Char.isDigit &&
        !(ip.isEmpty && fp.isEmpty) then
      some (qmul sc.1 (qadd (qnat (natOfDigits ip))
        (qdiv (qnat (natOfDigits fp)) (qnat (10 ^ fp.length)))))
    else none
  | _ => none

/-- The scalar outputs of `_read_curry_info`'s parameter portion
(`numchannels` is required but its value is never converted — the
`int(param_dict["numchannels"])` line is commented out in the
source). -/
structure CurryParams where
  n_samples : ℤ
  n_trials : ℤ
  sfreq : ℚ
  offset : ℚ
  time_step : ℚ
  data_format : String
deriving DecidableEq, Repr

/-- The parameter-file portion of `_read_curry_info` (lines 112–144 of
`curry.py`): scan every line, check the seven required keys in order
(raising `KeyError` naming the first missing one), convert the values
in source order (a failed conversion models `ValueError`), and derive
the sample rate from the time step when the stated rate is zero.  The
subsequent label-file/channel assembly consumes other files and is
outside every claim under verification. -/
def readCurryInfoParams (lines : List String) : Except CurryErr CurryParams :=
  match scanParams lines [] with
  | .error e => .error e
  | .ok d =>
    match requiredVars.find? (fun v => (lookupD d (toLowerStr v)).isNone) with
    | some v => .error (.missingVariable v)
    | none =>
      let gv := fun k => (lookupD d k).getD ""
      match parseInt (gv "numsamples") with
      | none => .error (.malformedValue (gv "numsamples"))
      | some ns =>
      match parseInt (gv "numtrials") with
      | none => .error (.malformedValue (gv "numtrials"))
      | some nt =>
      match parseQ (gv "samplefreqhz") with
      | none => .error (.malformedValue (gv "samplefreqhz"))
      | some sf =>
      match parseQ (gv "triggeroffsetusec") with
      | none => .error (.malformedValue (gv "triggeroffsetusec"))
      | some off =>
      match parseQ (gv "sampletimeusec") with
      | none => .error (.malformedValue (gv "sampletimeusec"))
      | some ts =>
        let timeStep := qmul ts (mkRat 1 1000000)
        let sf' := if sf = 0 ∧ timeStep ≠ 0 then qdiv 1 timeStep else sf
        .ok ⟨ns, nt, sf', qmul off (mkRat 1 1000000), timeStep, gv "dataformat"⟩

/-! ### `read_events_curry` -/

def entryFieldsOpt : Entry → Option (List String)
  | .fields fs => some fs
  | .str _ => none

/-- Embedding of `np.array(entries, dtype=int)` for a list of block entries: every
entry must be a tab-split field list, the lists must all have the same
length (numpy rejects ragged input), every field must parse as an
integer, and the list must be nonempty (an empty block yields a 1-D
empty array on which the `[:, 0:3]` slice raises `IndexError`). -/
def toIntMatrix (es : List Entry) : Option (List (List ℤ)) :=
  match es.mapM entryFieldsOpt with
  | none => none
  | some rows =>
    match rows with
    | [] => none
    | r0 :: _ =>
      if rows.all (fun r => r.length == r0.length) then
        rows.mapM (fun r => r.mapM parseInt)
      else none

/-- Embedding of `read_events_curry`, at the level of the event file's content (the
`check_fname` extension check concerns only the file name, not the
content, and is not embedded).  The NUMBER_LIST block becomes an
integer matrix, each row is restricted to its first three columns
(`[:, 0:3]`), and with `event_ids` given only the rows whose last
retained column is a member are kept. -/
def readEventsCurry (lines : List String) (eventIds : Option (List ℤ)) :
    Except String (List (List ℤ)) :=
  match toIntMatrix (readCurryLinesOne lines "NUMBER_LIST") with
  | none => .error "could not build the integer event array"
  | some m =>
    let sliced := m.map (fun r => r.take 3)
    match eventIds with
    | none => .ok sliced
    | some ids => .ok (sliced.filter (fun r => ids.contains (r.getLastD 0)))

/-! ## Specification-side observation functions

Decidable predicates and helper functions used to state properties;
they are not translations of repository code. -/

/-- Positions (in increasing order) at which a boolean mask is `true`:
the sample indices a mask-slice of the trailing axis retains. -/
def trueIdxs : List Bool → List ℕ
  | [] => []
  | b :: bs =>
    if b then 0 :: (trueIdxs bs).map (fun i => i + 1)
    else (trueIdxs bs).map (fun i => i + 1)

/-- A line the parameter scan can process without raising: either it
contains no key spelling, or cleaning and splitting on `"="` yields
exactly a key and a value. -/
def wellScanB (l : String) : Bool :=
  !containsVar l || (splitEq (cleanLine l)).length == 2

/-- Predicate `addsKeyB line key` : the scan of `line` inserts `key` into
`param_dict` (the line contains some accepted spelling as a substring
and its cleaned key part normalizes to `key`). -/
def addsKeyB (line key : String) : Bool :=
  containsVar line &&
    (match splitEq (cleanLine line) with
     | [k, _] => normKey k == key
     | _ => false)

def isOkB {ε α : Type} : Except ε α → Bool
  | .ok _ => true
  | .error _ => false

/-! ## Concrete examples (used by witnesses and counterexamples) -/

def exKernel : Tensor := ⟨[2, 2], [1, 2, 3, 4]⟩

def exSens : Tensor := ⟨[2, 1, 3], [1, 0, 2, 0, 1, 3]⟩

def exVertsX : VertArg := .inl [0, 1]

def dimsDFT : List String := ["dipoles", "freqs", "times"]

/-- The factored container `SourceTFR((exKernel, exSens), [0, 1],
tmin=0, tstep=1)` (equal to the output of `SourceTFR.init`). -/
def exFact : SourceTFR :=
  { _data := none, _kernel := some exKernel, _sens_data := some exSens,
    _kernel_removed := false, dims := dimsDFT, vertices := exVertsX,
    method := none, _tmin := 0, _tstep := 1, _times := [0, 1, 2] }

/-- The dense container with the same effective content. -/
def exDense : SourceTFR :=
  { _data := some ⟨[2, 1, 3], [1, 2, 8, 3, 4, 18]⟩, _kernel := none,
    _sens_data := none, _kernel_removed := false, dims := dimsDFT,
    vertices := exVertsX, method := none, _tmin := 0, _tstep := 1,
    _times := [0, 1, 2] }

/-- The container `exFact` after `resample(2)` with the identity primitive. -/
def exResampled : SourceTFR :=
  { _data := some ⟨[2, 1, 3], [1, 2, 8, 3, 4, 18]⟩, _kernel := none,
    _sens_data := none, _kernel_removed := true, dims := dimsDFT,
    vertices := exVertsX, method := none, _tmin := 0, _tstep := mkRat 1 2,
    _times := [0, mkRat 1 2, 1] }

/-- The container `exFact` after `crop(1, None)`. -/
def exCropped : SourceTFR :=
  { _data := none, _kernel := some exKernel,
    _sens_data := some ⟨[2, 1, 2], [0, 2, 1, 3]⟩,
    _kernel_removed := false, dims := dimsDFT, vertices := exVertsX,
    method := none, _tmin := 1, _tstep := 1, _times := [1, 2, 3] }

/-- A complete parameter file whose stated sample rate is zero and
whose per-sample time step is 10000 microseconds. -/
def exParamZeroSF : List String :=
  ["NumSamples = 100\n", "NumChannels = 4\n", "NumTrials = 1\n",
   "SampleFreqHz = 0\n", "TriggerOffsetUsec = 0\n",
   "DataFormat = ASCII\n", "SampleTimeUsec = 10000\n"]

/-- The same parameter file with the sample-rate line removed
entirely (the premise of claim C8). -/
def exParamNoSF : List String :=
  ["NumSamples = 100\n", "NumChannels = 4\n", "NumTrials = 1\n",
   "TriggerOffsetUsec = 0\n", "DataFormat = ASCII\n",
   "SampleTimeUsec = 10000\n"]

/-- A parameter file in which no line contains `NumSamples` or
`NUM_SAMPLES`, yet the line `Num_Samples=NumTrials` both passes the
substring test (it contains `NumTrials`) and normalizes its key part
to `numsamples` (the premise, but not the conclusion, of claim C7). -/
def exParamSpoof : List String :=
  ["Num_Samples=NumTrials\n", "NumChannels = 4\n", "NumTrials = 1\n",
   "SampleFreqHz = 100\n", "TriggerOffsetUsec = 0\n",
   "DataFormat = ASCII\n", "SampleTimeUsec = 0\n"]

/-- A parameter file whose first absent required parameter is
`NumTrials`. -/
def exParamNoNT : List String :=
  ["NumSamples = 100\n", "NumChannels = 4\n", "SampleFreqHz = 1000\n",
   "TriggerOffsetUsec = 0\n", "DataFormat = ASCII\n",
   "SampleTimeUsec = 1000\n"]

/-- A small curry event file: two four-column rows with event codes 5
and 7. -/
def exEventFile : List String :=
  ["ignored header\n", "NUMBER_LIST START_LIST\n",
   "1\t0\t5\t9\n", "2\t0\t7\t9\n", "NUMBER_LIST END_LIST\n",
   "trailer\n"]

/-- A small label file with one `LABELS_MAG1` block containing a blank
line and a tab-split line. -/
def exLabelFile : List String :=
  ["junk\n", "LABELS_MAG1 START_LIST\n", "a\n", "\n", "b\tc\n",
   "LABELS_MAG1 END_LIST\n", "tail\n"]

/-! ## The executable rational operations agree with the standard ones -/

theorem qadd_eq (a b : ℚ) : qadd a b = a + b := by
  have ha : ((a.den : ℚ)) ≠ 0 := by exact_mod_cast a.den_nz
  have hb : ((b.den : ℚ)) ≠ 0 := by exact_mod_cast b.den_nz
  rw [qadd, Rat.mkRat_eq_div]
  push_cast
  conv_rhs => rw [← Rat.num_div_den a, ← Rat.num_div_den b]
  field_simp

theorem qmul_eq (a b : ℚ) : qmul a b = a * b := by
  have ha : ((a.den : ℚ)) ≠ 0 := by exact_mod_cast a.den_nz
  have hb : ((b.den : ℚ)) ≠ 0 := by exact_mod_cast b.den_nz
  rw [qmul, Rat.mkRat_eq_div]
  push_cast
  conv_rhs => rw [← Rat.num_div_den a, ← Rat.num_div_den b]
  field_simp

theorem qinv_eq (b : ℚ) : qinv b = b⁻¹ := by
  have hb : ((b.den : ℚ)) ≠ 0 := by exact_mod_cast b.den_nz
  rw [qinv]
  by_cases hneg : b.num < 0
  · rw [if_pos hneg, Rat.mkRat_eq_div]
    push_cast [Int.cast_natAbs]
    rw [abs_of_neg (by exact_mod_cast hneg)]
    conv_rhs => rw [← Rat.num_div_den b]
    rw [inv_div]
    ring
  · rw [if_neg hneg]
    by_cases h0 : b.num = 0
    · have hb0 : b = 0 := by
        have := Rat.num_div_den b
        rw [h0] at this
        simpa using this.symm
      rw [h0]
      simp [hb0, mkRat]
    · rw [Rat.mkRat_eq_div]
      rw [Int.cast_natAbs]
      rw [abs_of_pos (by exact_mod_cast lt_of_le_of_ne (not_lt.mp hneg) (Ne.symm h0))]
      conv_rhs => rw [← Rat.num_div_den b]
      rw [inv_div]
      norm_cast

theorem qdiv_eq (a b : ℚ) : qdiv a b = a / b := by
  rw [qdiv, qmul_eq, qinv_eq, div_eq_mul_inv]

theorem qle_iff (a b : ℚ) : qle a b = true ↔ a ≤ b := by
  rw [qle, decide_eq_true_eq, Rat.le_def]

theorem qnat_eq (n : ℕ) : qnat n = (n : ℚ) := by
  rw [qnat, Rat.mkRat_eq_div]
  push_cast
  simp

theorem qsum_eq (l : List ℚ) : qsum l = l.sum := by
  induction l with
  | nil => rfl
  | cons a l ih =>
    rw [qsum, List.foldr_cons, List.sum_cons, qadd_eq]
    rw [qsum] at ih
    rw [ih]

/-! ## Shared helper lemmas -/

theorem getD_map_range {α : Type} (d : α) (f : ℕ → α) (n i : ℕ) (h : i < n) :
    ((List.range n).map f).getD i d = f i := by
  have hlen : i < ((List.range n).map f).length := by simpa using h
  rw [List.getD_eq_getElem _ _ hlen]
  simp

theorem sum_map_range (n : ℕ) (f : ℕ → ℚ) :
    ∑ k ∈ Finset.range n, f k = ((List.range n).map f).sum := by
  induction n with
  | zero => simp
  | succ m ih =>
    rw [List.range_succ, List.map_append, List.sum_append,
      Finset.sum_range_succ, ih]
    simp

theorem validIxB_length : ∀ ix ds : List ℕ, validIxB ix ds = true →
    ix.length = ds.length := by
  intro ix
  induction ix with
  | nil => intro ds h; cases ds <;> simp_all [validIxB]
  | cons i ix ih =>
    intro ds h
    cases ds with
    | nil => simp_all [validIxB]
    | cons d ds =>
      simp only [validIxB, Bool.and_eq_true] at h
      simp [ih ds h.2]

theorem ravel_lt_prod : ∀ ix ds : List ℕ, validIxB ix ds = true →
    ravel ix ds < ds.prod := by
  intro ix
  induction ix with
  | nil => intro ds h; cases ds <;> simp_all [validIxB, ravel]
  | cons i ix ih =>
    intro ds h
    cases ds with
    | nil => simp_all [validIxB]
    | cons d ds =>
      simp only [validIxB, Bool.and_eq_true, decide_eq_true_eq] at h
      have h2 := ih ds h.2
      have : ravel (i :: ix) (d :: ds) = i * ds.prod + ravel ix ds := rfl
      rw [this, List.prod_cons]
      calc i * ds.prod + ravel ix ds < i * ds.prod + ds.prod := by omega
        _ = (i + 1) * ds.prod := by ring
        _ ≤ d * ds.prod := Nat.mul_le_mul_right _ (by omega)

theorem ravel_append_one : ∀ (pre ds : List ℕ) (j m : ℕ),
    pre.length = ds.length →
    ravel (pre ++ [j]) (ds ++ [m]) = ravel pre ds * m + j := by
  intro pre
  induction pre with
  | nil =>
    intro ds j m h
    have : ds = [] := by simpa using h.symm
    subst this
    simp [ravel]
  | cons p pre ih =>
    intro ds j m h
    cases ds with
    | nil => simp at h
    | cons d ds =>
      simp only [List.length_cons, Nat.add_right_cancel_iff] at h
      have : ravel ((p :: pre) ++ [j]) ((d :: ds) ++ [m]) =
          p * (ds ++ [m]).prod + ravel (pre ++ [j]) (ds ++ [m]) := rfl
      rw [this, ih ds j m h, List.prod_append]
      have : ravel (p :: pre) (d :: ds) = p * ds.prod + ravel pre ds := rfl
      rw [this]
      simp
      ring

/-! ## Claim C1 -/

/-- **C1** (confirmed).  For every validly constructed factored
`SourceTFR` with kernel of shape `[V, S]` and sensor data of shape
`S :: rest`, the dense array produced by the collapse triggered by the
first read of the `data` property is `tensordot2 kernel sens_data`,
and that array equals, element for element, the tensor contraction of
kernel and sensor data over the shared `S` axis. -/
theorem C1_collapse_is_contraction
    (s : SourceTFR) (k sd : Tensor) (V S : ℕ) (rest : List ℕ)
    (hd : s._data = none) (hk : s._kernel = some k)
    (hs : s._sens_data = some sd)
    (hks : k.shape = [V, S]) (hss : sd.shape = S :: rest) :
    (s.dataRead).2 = some (tensordot2 k sd) ∧
    ∀ v ix, v < V → validIxB ix rest = true →
      (tensordot2 k sd).get (v :: ix) =
        ∑ j ∈ Finset.range S, k.get [v, j] * sd.get (j :: ix) := by
  constructor
  · simp [SourceTFR.dataRead, hd, SourceTFR.removeKernelSensData, hk, hs]
  · intro v ix hv hix
    have hrlt : ravel ix rest < rest.prod := ravel_lt_prod ix rest hix
    have hRpos : 0 < rest.prod := lt_of_le_of_lt (Nat.zero_le _) hrlt
    have hpos : v * rest.prod + ravel ix rest < V * rest.prod := by
      calc v * rest.prod + ravel ix rest < v * rest.prod + rest.prod := by omega
        _ = (v + 1) * rest.prod := by ring
        _ ≤ V * rest.prod := Nat.mul_le_mul_right _ (by omega)
    have hshape : (tensordot2 k sd).shape = V :: rest := by
      simp [tensordot2, hks, hss]
    have hentries : (tensordot2 k sd).entries =
        (List.range (V * rest.prod)).map (fun i =>
          qsum ((List.range S).map (fun j =>
            qmul (k.entries.getD (i / rest.prod * S + j) 0)
              (sd.entries.getD (j * rest.prod + i % rest.prod) 0)))) := by
      simp [tensordot2, hks, hss]
    have hravel : ravel (v :: ix) (V :: rest) = v * rest.prod + ravel ix rest := rfl
    rw [Tensor.get, hshape, hravel, hentries,
      getD_map_range _ _ _ _ hpos, qsum_eq]
    simp only [qmul_eq]
    have hdiv : (v * rest.prod + ravel ix rest) / rest.prod = v := by
      rw [Nat.mul_comm v rest.prod, Nat.mul_add_div hRpos,
        Nat.div_eq_of_lt hrlt, Nat.add_zero]
    have hmod : (v * rest.prod + ravel ix rest) % rest.prod = ravel ix rest := by
      rw [Nat.mul_comm v rest.prod, Nat.mul_add_mod,
        Nat.mod_eq_of_lt hrlt]
    rw [hdiv, hmod, ← sum_map_range]
    apply Finset.sum_congr rfl
    intro j _
    have h1 : k.get [v, j] = k.entries.getD (v * S + j) 0 := by
      simp [Tensor.get, hks, ravel]
    have h2 : sd.get (j :: ix) = sd.entries.getD (j * rest.prod + ravel ix rest) 0 := by
      simp [Tensor.get, hss, ravel]
    rw [h1, h2]

/-- Witness for C1, at the concrete factored container `exFact`
(kernel `[[1,2],[3,4]]`, sensor data of shape `[2,1,3]`), evaluating
the element at multi-index `[1, 0, 2]`. -/
theorem C1_collapse_is_contraction_witness :
    (exFact.dataRead).2 = some (tensordot2 exKernel exSens) ∧
    (tensordot2 exKernel exSens).get [1, 0, 2] =
      ∑ j ∈ Finset.range 2, exKernel.get [1, j] * exSens.get (j :: [0, 2]) := by
  have h := C1_collapse_is_contraction exFact exKernel exSens 2 2 [1, 3]
    rfl rfl rfl rfl rfl
  exact ⟨h.1, h.2 1 [0, 2] (by decide) (by decide)⟩

/-! ## Field-tracking lemmas for the SourceTFR operations -/

@[simp] theorem updateTimes_data (s : SourceTFR) :
    (s.updateTimes)._data = s._data := rfl

@[simp] theorem updateTimes_kernel (s : SourceTFR) :
    (s.updateTimes)._kernel = s._kernel := rfl

@[simp] theorem updateTimes_sens (s : SourceTFR) :
    (s.updateTimes)._sens_data = s._sens_data := rfl

@[simp] theorem updateTimes_tstep (s : SourceTFR) :
    (s.updateTimes)._tstep = s._tstep := rfl

@[simp] theorem updateTimes_tmin (s : SourceTFR) :
    (s.updateTimes)._tmin = s._tmin := rfl

@[simp] theorem setTmin_data (s : SourceTFR) (v : ℚ) :
    (s.setTmin v)._data = s._data := rfl

@[simp] theorem setTmin_kernel (s : SourceTFR) (v : ℚ) :
    (s.setTmin v)._kernel = s._kernel := rfl

@[simp] theorem setTmin_sens (s : SourceTFR) (v : ℚ) :
    (s.setTmin v)._sens_data = s._sens_data := rfl

@[simp] theorem setTmin_tstep (s : SourceTFR) (v : ℚ) :
    (s.setTmin v)._tstep = s._tstep := rfl

@[simp] theorem setTmin_tmin (s : SourceTFR) (v : ℚ) :
    (s.setTmin v)._tmin = v := rfl

theorem remove_kernel (s : SourceTFR) :
    (s.removeKernelSensData)._kernel = none := by
  unfold SourceTFR.removeKernelSensData
  split
  · rfl
  · rename_i h
    cases hk : s._kernel with
    | none => rfl
    | some k => rw [hk] at h; simp at h

theorem remove_sens (s : SourceTFR) :
    (s.removeKernelSensData)._sens_data = none := by
  unfold SourceTFR.removeKernelSensData
  split
  · rfl
  · rename_i h
    cases hs : s._sens_data with
    | none => rfl
    | some k => rw [hs] at h; simp at h

theorem remove_data_of_kernel (s : SourceTFR) (h : s._kernel.isSome = true) :
    (s.removeKernelSensData)._data =
      some (tensordot2 (s._kernel.getD emptyT) (s._sens_data.getD emptyT)) := by
  unfold SourceTFR.removeKernelSensData
  rw [if_pos (by simp [h])]

theorem remove_of_none (s : SourceTFR) (hk : s._kernel = none)
    (hs : s._sens_data = none) : s.removeKernelSensData = s := by
  unfold SourceTFR.removeKernelSensData
  rw [if_neg (by simp [hk, hs])]

theorem remove_tstep (s : SourceTFR) :
    (s.removeKernelSensData)._tstep = s._tstep := by
  unfold SourceTFR.removeKernelSensData
  split <;> rfl

theorem remove_tmin (s : SourceTFR) :
    (s.removeKernelSensData)._tmin = s._tmin := by
  unfold SourceTFR.removeKernelSensData
  split <;> rfl

theorem setData_ok (s : SourceTFR) (v : Tensor) (s' : SourceTFR)
    (h : s.setData v = .ok s') :
    s'._data = some v ∧ s'._kernel = s._kernel ∧
      s'._sens_data = s._sens_data ∧ s'._tstep = s._tstep := by
  unfold SourceTFR.setData at h
  split at h
  · split at h
    · exact absurd h (by simp)
    · split at h
      · exact absurd h (by simp)
      · injection h with h
        subst h
        simp
  · split at h
    · exact absurd h (by simp)
    · injection h with h
      subst h
      simp

theorem setTstep_ok (s : SourceTFR) (v : ℚ) (s' : SourceTFR)
    (h : s.setTstep v = .ok s') :
    s'._tstep = v ∧ 0 < v ∧ s'._data = s._data ∧
      s'._kernel = s._kernel ∧ s'._sens_data = s._sens_data := by
  unfold SourceTFR.setTstep at h
  split at h
  · exact absurd h (by simp)
  · rename_i hv
    injection h with h
    subst h
    have hv2 : ¬ v ≤ 0 := fun hle => hv ((qle_iff v 0).mpr hle)
    exact ⟨rfl, not_le.mp hv2, by simp⟩

theorem dataRead_fst_fields (s : SourceTFR) :
    ((s.dataRead).1)._tstep = s._tstep ∧ ((s.dataRead).1)._tmin = s._tmin := by
  unfold SourceTFR.dataRead
  split
  · exact ⟨rfl, rfl⟩
  · exact ⟨remove_tstep s, remove_tmin s⟩

theorem dataRead_of_none (s : SourceTFR) (hk : s._kernel = none)
    (hs : s._sens_data = none) : s.dataRead = (s, s._data) := by
  unfold SourceTFR.dataRead
  split
  · rfl
  · rw [remove_of_none s hk hs]

/-! ## Claim C2 -/

/-- **C2** (corrected).  The original claim also listed `crop()` as a
collapse trigger; in the source, `crop` on a factored container slices
`_sens_data` and leaves the representation factored, so that part is
false (see the counterexample).  Amended statement proved here: the
factored form is irreversibly collapsed to Dense on the first read of
the `data` property and on `resample()`; `crop()` preserves the
representation (Factored stays Factored, Dense stays Dense); and no
public operation (data read, crop, resample, tmin/tstep/data
assignment) ever transitions a Dense container back to Factored. -/
theorem C2_state_transitions :
    (∀ s : SourceTFR, Factored s →
      Dense (s.dataRead).1 ∧ ((s.dataRead).2).isSome = true) ∧
    (∀ (s : SourceTFR) (prim : Tensor → ℚ → ℚ → Tensor) (r : ℚ)
      (s' : SourceTFR), s.resample prim r = .ok s' → Dense s') ∧
    (∀ (s : SourceTFR) (t0 t1 : Option ℚ) (s' : SourceTFR),
      Factored s → s.crop t0 t1 = .ok s' → Factored s') ∧
    (∀ (s : SourceTFR) (t0 t1 : Option ℚ) (s' : SourceTFR),
      Dense s → s.crop t0 t1 = .ok s' → Dense s') ∧
    (∀ s : SourceTFR, Dense s → Dense (s.dataRead).1) ∧
    (∀ (s : SourceTFR) (v : ℚ), Dense s → Dense (s.setTmin v)) ∧
    (∀ (s : SourceTFR) (v : ℚ) (s' : SourceTFR),
      Dense s → s.setTstep v = .ok s' → Dense s') ∧
    (∀ (s : SourceTFR) (t : Tensor) (s' : SourceTFR),
      Dense s → s.setData t = .ok s' → Dense s') := by
  refine ⟨?_, ?_, ?_, ?_, ?_, ?_, ?_, ?_⟩
  · -- first data read collapses a factored container
    intro s hF
    obtain ⟨hd, hk, hs⟩ := hF
    have hrd : s.dataRead = (s.removeKernelSensData, (s.removeKernelSensData)._data) := by
      unfold SourceTFR.dataRead
      rw [hd]
      simp
    rw [hrd]
    refine ⟨⟨?_, remove_kernel s, remove_sens s⟩, ?_⟩
    · rw [remove_data_of_kernel s hk]; rfl
    · rw [remove_data_of_kernel s hk]; rfl
  · -- resample always ends Dense
    intro s prim r s' h
    simp only [SourceTFR.resample] at h
    have hk0 := remove_kernel s
    have hs0 := remove_sens s
    split at h
    · exact absurd h (by simp)
    · split at h
      · rename_i s1 d heq
        rw [dataRead_of_none _ hk0 hs0] at heq
        injection heq with heq1 heq2
        cases hsd : s1.setData (prim d r (qdiv 1 (s.removeKernelSensData)._tstep)) with
        | error e => rw [hsd] at h; exact absurd h (by simp [Except.bind])
        | ok s2 =>
          rw [hsd] at h
          simp only [Except.bind] at h
          split at h
          · exact absurd h (by simp)
          · obtain ⟨h2d, h2k, h2s, _⟩ := setData_ok _ _ _ hsd
            obtain ⟨_, _, h3d, h3k, h3s⟩ := setTstep_ok _ _ _ h
            refine ⟨?_, ?_, ?_⟩
            · rw [h3d, h2d]; rfl
            · rw [h3k, h2k, ← heq1, hk0]
            · rw [h3s, h2s, ← heq1, hs0]
      · exact absurd h (by simp)
  · -- crop keeps a factored container factored
    intro s t0 t1 s' hF h
    obtain ⟨hd, hk, hs⟩ := hF
    simp only [SourceTFR.crop] at h
    split at h
    · exact absurd h (by simp)
    · split at h
      · exact absurd h (by simp)
      · split at h
        · split at h
          · exact absurd h (by simp)
          · injection h with h
            subst h
            refine ⟨by simp [hd], by simp [hk], by simp⟩
        · rename_i hcond
          exact absurd (by simp [hk, hs]) hcond
  · -- crop keeps a dense container dense
    intro s t0 t1 s' hD h
    obtain ⟨hd, hk, hs⟩ := hD
    obtain ⟨d, hdd⟩ := Option.isSome_iff_exists.mp hd
    simp only [SourceTFR.crop] at h
    split at h
    · exact absurd h (by simp)
    · split at h
      · exact absurd h (by simp)
      · split at h
        · rename_i hcond
          exact absurd hcond (by simp [hk])
        · split at h
          · rename_i s2 d2 heq
            rw [dataRead_of_none _ (by simp [hk]) (by simp [hs])] at heq
            injection heq with heq1 heq2
            split at h
            · exact absurd h (by simp)
            · obtain ⟨h2d, h2k, h2s, _⟩ := setData_ok _ _ _ h
              refine ⟨by rw [h2d]; rfl, ?_, ?_⟩
              · rw [h2k, ← heq1]; simp [hk]
              · rw [h2s, ← heq1]; simp [hs]
          · exact absurd h (by simp)
  · -- data read keeps a dense container dense
    intro s hD
    obtain ⟨hd, hk, hs⟩ := hD
    rw [dataRead_of_none s hk hs]
    exact ⟨hd, hk, hs⟩
  · -- tmin assignment keeps a dense container dense
    intro s v hD
    obtain ⟨hd, hk, hs⟩ := hD
    exact ⟨by simp [hd], by simp [hk], by simp [hs]⟩
  · -- tstep assignment keeps a dense container dense
    intro s v s' hD h
    obtain ⟨hd, hk, hs⟩ := hD
    obtain ⟨_, _, h3d, h3k, h3s⟩ := setTstep_ok _ _ _ h
    exact ⟨by rw [h3d]; exact hd, by rw [h3k]; exact hk, by rw [h3s]; exact hs⟩
  · -- data assignment keeps a dense container dense
    intro s t s' hD h
    obtain ⟨hd, hk, hs⟩ := hD
    obtain ⟨h2d, h2k, h2s, _⟩ := setData_ok _ _ _ h
    exact ⟨by rw [h2d]; rfl, by rw [h2k]; exact hk, by rw [h2s]; exact hs⟩

/-- Counterexample to C2 as stated: on the concrete factored container
`exFact`, `crop(None, None)` succeeds and the result still carries the
kernel and no dense data — `crop` did not collapse the factored form,
contradicting the claim that crop triggers the one-way collapse. -/
theorem C2_state_transitions_counterexample :
    exFact.crop none none = .ok exFact ∧
    exFact._kernel = some exKernel ∧ exFact._data = none := by
  refine ⟨by rfl, rfl, rfl⟩

/-- Witness for C2: the collapse on first data read, the resample
collapse, and the crop preservation, at concrete containers. -/
theorem C2_state_transitions_witness :
    Dense (exFact.dataRead).1 ∧ Dense exResampled ∧ Factored exCropped := by
  refine ⟨(C2_state_transitions.1 exFact (by decide)).1,
    C2_state_transitions.2.1 exFact (fun d _ _ => d) 2 exResampled (by rfl),
    C2_state_transitions.2.2.1 exFact (some 1) none exCropped (by decide) (by rfl)⟩

/-! ## Boolean-mask slicing, element for element -/

theorem trueIdxs_length (mask : List Bool) :
    (trueIdxs mask).length = mask.count true := by
  induction mask with
  | nil => rfl
  | cons b bs ih =>
    cases b <;> simp [trueIdxs, ih, List.count_cons]

theorem trueIdxs_lt (mask : List Bool) : ∀ i ∈ trueIdxs mask, i < mask.length := by
  induction mask with
  | nil => simp [trueIdxs]
  | cons b bs ih =>
    intro i hi
    have hmem : i = 0 ∨ ∃ i' ∈ trueIdxs bs, i = i' + 1 := by
      cases b with
      | true =>
        have ht : trueIdxs (true :: bs) = 0 :: (trueIdxs bs).map (fun x => x + 1) := by
          simp [trueIdxs]
        rw [ht] at hi
        rcases List.mem_cons.mp hi with h | h
        · exact Or.inl h
        · obtain ⟨i', hi', he⟩ := List.mem_map.mp h
          exact Or.inr ⟨i', hi', he.symm⟩
      | false =>
        have hf : trueIdxs (false :: bs) = (trueIdxs bs).map (fun x => x + 1) := by
          simp [trueIdxs]
        rw [hf] at hi
        obtain ⟨i', hi', he⟩ := List.mem_map.mp hi
        exact Or.inr ⟨i', hi', he.symm⟩
    rcases hmem with rfl | ⟨i', hi', rfl⟩
    · simp
    · have := ih i' hi'
      simp only [List.length_cons]
      omega

theorem sliceRow_eq_map : ∀ (row : List ℚ) (mask : List Bool),
    row.length = mask.length →
    sliceRow row mask = (trueIdxs mask).map (fun i => row.getD i 0) := by
  intro row
  induction row with
  | nil =>
    intro mask h
    have : mask = [] := by simpa using h.symm
    subst this
    rfl
  | cons r rs ih =>
    intro mask h
    cases mask with
    | nil => simp at h
    | cons b bs =>
      simp only [List.length_cons, Nat.add_right_cancel_iff] at h
      have hrec := ih bs h
      cases b with
      | true =>
        have h1 : sliceRow (r :: rs) (true :: bs) = r :: sliceRow rs bs := by
          simp [sliceRow]
        rw [h1, hrec, trueIdxs]
        simp [List.map_map, Function.comp_def]
      | false =>
        have h1 : sliceRow (r :: rs) (false :: bs) = sliceRow rs bs := by
          simp [sliceRow]
        rw [h1, hrec, trueIdxs]
        simp [List.map_map, Function.comp_def]

theorem sliceRow_length (row : List ℚ) (mask : List Bool)
    (h : row.length = mask.length) :
    (sliceRow row mask).length = mask.count true := by
  rw [sliceRow_eq_map row mask h, List.length_map, trueIdxs_length]

theorem getD_map_lt {α β : Type} (g : α → β) (l : List α) (j : ℕ)
    (dα : α) (dβ : β) (hj : j < l.length) :
    (l.map g).getD j dβ = g (l.getD j dα) := by
  rw [List.getD_eq_getElem _ _ (by simpa using hj),
    List.getD_eq_getElem _ _ hj, List.getElem_map]

theorem flatten_getD (K : ℕ) : ∀ (ls : List (List ℚ)) (q j : ℕ),
    (∀ l ∈ ls, l.length = K) → q < ls.length → j < K →
    ls.flatten.getD (q * K + j) 0 = (ls.getD q []).getD j 0 := by
  intro ls
  induction ls with
  | nil => intro q j _ hq _; simp at hq
  | cons l rest ih =>
    intro q j hall hq hj
    cases q with
    | zero =>
      have hl : l.length = K := hall l (by simp)
      rw [List.flatten_cons, Nat.zero_mul, Nat.zero_add,
        List.getD_append _ _ _ _ (by omega), List.getD_cons_zero]
    | succ q' =>
      have hl : l.length = K := hall l (by simp)
      have harith : (q' + 1) * K + j = l.length + (q' * K + j) := by
        rw [hl]; ring
      rw [List.flatten_cons, harith,
        List.getD_append_right _ _ _ _ (by omega)]
      have hsub : l.length + (q' * K + j) - l.length = q' * K + j := by omega
      rw [hsub, ih q' j (fun x hx => hall x (by simp [hx]))
        (by simpa using hq) hj, List.getD_cons_succ]

theorem getD_drop_take (l : List ℚ) (a n i : ℕ) (hi : i < n)
    (h : a + i < l.length) :
    ((l.drop a).take n).getD i 0 = l.getD (a + i) 0 := by
  have h1 : i < ((l.drop a).take n).length := by
    simp only [List.length_take, List.length_drop]
    omega
  rw [List.getD_eq_getElem _ _ h1, List.getD_eq_getElem _ _ h,
    List.getElem_take, List.getElem_drop]

theorem prod_dropLast : ∀ sh : List ℕ, sh ≠ [] →
    sh.prod = sh.dropLast.prod * lastDim sh := by
  intro sh
  induction sh with
  | nil => intro h; exact absurd rfl h
  | cons x tl ih =>
    intro _
    cases tl with
    | nil => simp [lastDim]
    | cons y tl' =>
      have hrec := ih (by simp)
      have hlast : lastDim (x :: y :: tl') = lastDim (y :: tl') := by
        simp [lastDim, List.getLastD_eq_getLast?]
      rw [List.prod_cons, hrec, hlast]
      have : (x :: y :: tl').dropLast = x :: (y :: tl').dropLast := by
        simp
      rw [this, List.prod_cons]
      ring

theorem getD_range (n i d : ℕ) (h : i < n) : (List.range n).getD i d = i := by
  rw [List.getD_eq_getElem _ _ (by simpa using h), List.getElem_range]

/-- The central slicing lemma: for a well-formed tensor and a mask of
the trailing axis length, entry `(pre, j)` of `t[..., mask]` is entry
`(pre, trueIdxs mask !! j)` of `t` — the slice touches only the
trailing axis and keeps exactly the masked positions, in order. -/
theorem sliceLast_get (t : Tensor) (mask : List Bool) (pre : List ℕ) (j : ℕ)
    (hsh : t.shape ≠ []) (hlen : t.entries.length = t.shape.prod)
    (hmask : mask.length = lastDim t.shape)
    (hpre : validIxB pre t.shape.dropLast = true)
    (hj : j < mask.count true) :
    (sliceLast t mask).get (pre ++ [j]) =
      t.get (pre ++ [(trueIdxs mask).getD j 0]) := by
  have hq : ravel pre t.shape.dropLast < t.shape.dropLast.prod :=
    ravel_lt_prod _ _ hpre
  have hKle : mask.count true ≤ mask.length := List.count_le_length _ _
  have hnpos : 0 < lastDim t.shape := by
    rw [← hmask]; omega
  have hprod : t.entries.length = t.shape.dropLast.prod * lastDim t.shape := by
    rw [hlen, prod_dropLast t.shape hsh]
  have hrows : t.entries.length / lastDim t.shape = t.shape.dropLast.prod := by
    rw [hprod, Nat.mul_div_cancel _ hnpos]
  have hplen : pre.length = t.shape.dropLast.length := validIxB_length _ _ hpre
  -- the index of the retained sample
  have hjlen : j < (trueIdxs mask).length := by rw [trueIdxs_length]; exact hj
  have hmem : (trueIdxs mask).getD j 0 ∈ trueIdxs mask := by
    rw [List.getD_eq_getElem _ _ hjlen]
    exact List.getElem_mem hjlen
  have hidx : (trueIdxs mask).getD j 0 < lastDim t.shape := by
    rw [← hmask]
    exact trueIdxs_lt mask _ hmem
  -- the slice's entries, one full row
  have hrow_len : ∀ i < t.shape.dropLast.prod,
      ((t.entries.drop (i * lastDim t.shape)).take (lastDim t.shape)).length =
        lastDim t.shape := by
    intro i hi
    simp only [List.length_take, List.length_drop]
    have : (i + 1) * lastDim t.shape ≤ t.entries.length := by
      rw [hprod]
      exact Nat.mul_le_mul_right _ (by omega)
    have h2 : i * lastDim t.shape + lastDim t.shape ≤ t.entries.length := by
      calc i * lastDim t.shape + lastDim t.shape = (i + 1) * lastDim t.shape := by ring
        _ ≤ t.entries.length := this
    omega
  -- LHS: flat position in the sliced tensor
  have hshape' : (sliceLast t mask).shape = t.shape.dropLast ++ [mask.count true] := rfl
  have hravL : ravel (pre ++ [j]) (t.shape.dropLast ++ [mask.count true]) =
      ravel pre t.shape.dropLast * mask.count true + j :=
    ravel_append_one _ _ _ _ hplen
  have hentL : (sliceLast t mask).entries =
      ((List.range (t.entries.length / lastDim t.shape)).map (fun i =>
        sliceRow ((t.entries.drop (i * lastDim t.shape)).take (lastDim t.shape))
          mask)).flatten := rfl
  rw [Tensor.get, hshape', hravL, hentL, hrows]
  have hall : ∀ l ∈ (List.range t.shape.dropLast.prod).map (fun i =>
      sliceRow ((t.entries.drop (i * lastDim t.shape)).take (lastDim t.shape)) mask),
      l.length = mask.count true := by
    intro l hl
    obtain ⟨i, hi, rfl⟩ := List.mem_map.mp hl
    rw [List.mem_range] at hi
    exact sliceRow_length _ _ (by rw [hrow_len i hi, hmask])
  rw [flatten_getD (mask.count true) _ _ _ hall (by simpa using hq) hj,
    getD_map_lt _ _ _ 0 [] (by simpa using hq)]
  rw [getD_range _ _ _ hq]
  rw [sliceRow_eq_map _ _ (by rw [hrow_len _ hq, hmask])]
  rw [getD_map_lt _ _ _ 0 0 hjlen]
  rw [getD_drop_take _ _ _ _ hidx (by
    rw [hprod]
    calc ravel pre t.shape.dropLast * lastDim t.shape + (trueIdxs mask).getD j 0
        < ravel pre t.shape.dropLast * lastDim t.shape + lastDim t.shape := by omega
      _ = (ravel pre t.shape.dropLast + 1) * lastDim t.shape := by ring
      _ ≤ t.shape.dropLast.prod * lastDim t.shape :=
          Nat.mul_le_mul_right _ (by omega))]
  -- RHS: flat position in the original tensor
  have hsplit : t.shape = t.shape.dropLast ++ [lastDim t.shape] := by
    conv_lhs => rw [← List.dropLast_append_getLast hsh]
    congr 1
    rw [lastDim, List.getLastD_eq_getLast?, List.getLast?_eq_getLast _ hsh]
    rfl
  rw [Tensor.get]
  conv_rhs => rw [hsplit]
  rw [ravel_append_one _ _ _ _ hplen]

/-! ## Claim C3 -/

/-- **C3** (confirmed).  For a factored container, `crop(tmin, tmax)`
leaves the kernel untouched and the representation factored (`_data`
still unset), replaces the sensor data by its trailing-axis mask slice
only — element for element, entry `(pre, j)` of the new sensor data is
entry `(pre, index of the (j+1)-th retained sample)` of the old — and
updates `tmin` to the time of the first retained sample.  "Returns the
container itself" holds by the embedding convention: the returned
value is the single mutated `self` (Python returns `self` after
in-place mutation; aliasing has no separate observable here). -/
theorem C3_crop_factored
    (s : SourceTFR) (k sd : Tensor) (t0 t1 : Option ℚ) (s' : SourceTFR)
    (hd : s._data = none) (hk : s._kernel = some k)
    (hs : s._sens_data = some sd)
    (hok : s.crop t0 t1 = .ok s') :
    s'._kernel = some k ∧
    s'._data = none ∧
    s'._sens_data = some (sliceLast sd (timeMask s._times t0 t1)) ∧
    (∀ i, firstTrue (timeMask s._times t0 t1) = some i →
      s'._tmin = s._times.getD i 0) ∧
    (sd.shape ≠ [] → sd.entries.length = sd.shape.prod →
      ∀ pre j, validIxB pre sd.shape.dropLast = true →
        j < (timeMask s._times t0 t1).count true →
        (sliceLast sd (timeMask s._times t0 t1)).get (pre ++ [j]) =
          sd.get (pre ++ [(trueIdxs (timeMask s._times t0 t1)).getD j 0])) := by
  simp only [SourceTFR.crop] at hok
  split at hok
  · exact absurd hok (by simp)
  · split at hok
    · exact absurd hok (by simp)
    · rename_i i hfi
      split at hok
      · rename_i hcond
        split at hok
        · exact absurd hok (by simp)
        · rename_i hmlen
          injection hok with hok
          subst hok
          refine ⟨by simp [hk], by simp [hd], by simp [hs], ?_, ?_⟩
          · intro i' hi'
            rw [hfi] at hi'
            injection hi' with hi'
            subst hi'
            simp
          · intro hsh hlen pre j hpre hj
            have hmask : (timeMask s._times t0 t1).length = lastDim sd.shape := by
              simp only [setTmin_sens, hs, Option.getD_some] at hmlen
              omega
            exact sliceLast_get sd _ pre j hsh hlen hmask hpre hj
      · rename_i hcond
        exact absurd (by simp [hk, hs]) hcond

/-- Witness for C3 at the concrete container `exFact` cropped to
`[1, ∞)`: the kernel survives, the representation stays factored, the
sensor data is the mask slice, tmin becomes 1, and the elementwise
characterization holds at `pre = [0]`, `j = 0`. -/
theorem C3_crop_factored_witness :
    exCropped._kernel = some exKernel ∧
    exCropped._data = none ∧
    exCropped._sens_data =
      some (sliceLast exSens (timeMask exFact._times (some 1) none)) ∧
    exCropped._tmin = exFact._times.getD 1 0 ∧
    (sliceLast exSens (timeMask exFact._times (some 1) none)).get ([0, 0] ++ [0]) =
      exSens.get ([0, 0] ++ [(trueIdxs (timeMask exFact._times (some 1) none)).getD 0 0]) := by
  have h := C3_crop_factored exFact exKernel exSens (some 1) none exCropped
    rfl rfl rfl (by decide)
  exact ⟨h.1, h.2.1, h.2.2.1, h.2.2.2.1 1 (by decide),
    h.2.2.2.2 (by decide) (by decide) [0, 0] 0 (by decide) (by decide)⟩

/-! ## Claim C4 -/

/-- **C4** (confirmed).  For every container and positive target rate
`r`, a successful `resample(r)` leaves `tstep = 1/r`, and the collapse
to Dense was forced first: `kernel` and `sens_data` are unset in the
post-state regardless of the starting representation (the resampling
filter is the black-box parameter `prim`, so this holds for every
resampling primitive). -/
theorem C4_resample_tstep
    (s : SourceTFR) (prim : Tensor → ℚ → ℚ → Tensor) (r : ℚ) (s' : SourceTFR)
    (_hr : 0 < r) (hok : s.resample prim r = .ok s') :
    s'._tstep = 1 / r ∧ s'._kernel = none ∧ s'._sens_data = none := by
  simp only [SourceTFR.resample] at hok
  have hk0 := remove_kernel s
  have hs0 := remove_sens s
  split at hok
  · exact absurd hok (by simp)
  · split at hok
    · rename_i s1 d heq
      rw [dataRead_of_none _ hk0 hs0] at heq
      injection heq with heq1 heq2
      cases hsd : s1.setData (prim d r (qdiv 1 (s.removeKernelSensData)._tstep)) with
      | error e => rw [hsd] at hok; exact absurd hok (by simp [Except.bind])
      | ok s2 =>
        rw [hsd] at hok
        simp only [Except.bind] at hok
        split at hok
        · exact absurd hok (by simp)
        · obtain ⟨h2d, h2k, h2s, _⟩ := setData_ok _ _ _ hsd
          obtain ⟨h3t, _, h3d, h3k, h3s⟩ := setTstep_ok _ _ _ hok
          refine ⟨by rw [h3t, qdiv_eq], ?_, ?_⟩
          · rw [h3k, h2k, ← heq1, hk0]
          · rw [h3s, h2s, ← heq1, hs0]
    · exact absurd hok (by simp)

/-- Witness for C4: resampling the factored `exFact` to rate 2 with
the identity primitive gives `tstep = 1/2` and a collapsed container. -/
theorem C4_resample_tstep_witness :
    exResampled._tstep = 1 / 2 ∧ exResampled._kernel = none ∧
    exResampled._sens_data = none := by
  have h := C4_resample_tstep exFact (fun d _ _ => d) 2 exResampled
    two_pos (by decide)
  exact h

/-! ## Claim C5 -/

/-- **C5** (confirmed).  Reading `.shape` of a factored container
reports `(kernel.shape[0],) + sens_data.shape[1:]` (`shape` is a pure
observation in the embedding — the Python property mutates nothing, so
kernel and sensor data remain set); in the dense state it reports
`data.shape`; and a factored container and the equivalently
constructed dense container (holding the tensordot of the same kernel
and sensor data) agree on `.shape` and on `.data`. -/
theorem C5_shape_refinement
    (k sd : Tensor) (va : VertArg) (tmin tstep : ℚ) (dims : List String)
    (method : Option String) (f de : SourceTFR)
    (hf : SourceTFR.init (.factored k sd) va tmin tstep dims method = .ok f)
    (hde : SourceTFR.init (.dense (tensordot2 k sd)) va tmin tstep dims method = .ok de) :
    f._kernel = some k ∧ f._sens_data = some sd ∧ f._data = none ∧
    f.shape = (k.shape.headD 0) :: sd.shape.tail ∧
    de.shape = (tensordot2 k sd).shape ∧
    f.shape = de.shape ∧
    (f.dataRead).2 = some (tensordot2 k sd) ∧
    (f.dataRead).2 = (de.dataRead).2 := by
  simp only [SourceTFR.init] at hf hde
  split at hf
  · exact absurd hf (by simp)
  · split at hf
    · exact absurd hf (by simp)
    · split at hf
      · exact absurd hf (by simp)
      · split at hf
        · exact absurd hf (by simp)
        · split at hf
          · exact absurd hf (by simp)
          · cases hpv : processVerts va with
            | error e => rw [hpv] at hf; exact absurd hf (by simp [Except.map])
            | ok pv =>
              rw [hpv] at hf
              simp only [Except.map] at hf
              rw [hpv] at hde
              simp only [Except.bind] at hde
              split at hde
              · exact absurd hde (by simp)
              · split at hde
                · exact absurd hde (by simp)
                · split at hde
                  · exact absurd hde (by simp)
                  · split at hde
                    · exact absurd hde (by simp)
                    · injection hf with hf
                      injection hde with hde
                      subst hf
                      subst hde
                      refine ⟨rfl, rfl, rfl, rfl, rfl, rfl, ?_, ?_⟩
                      · simp [mkStfr, SourceTFR.dataRead,
                          SourceTFR.removeKernelSensData]
                      · simp [mkStfr, SourceTFR.dataRead,
                          SourceTFR.removeKernelSensData]

/-- Witness for C5: the concrete factored container `exFact` and the
equivalently constructed dense container `exDense`. -/
theorem C5_shape_refinement_witness :
    exFact.shape = exDense.shape ∧
    (exFact.dataRead).2 = (exDense.dataRead).2 := by
  have h := C5_shape_refinement exKernel exSens exVertsX 0 1 dimsDFT none
    exFact exDense (by decide) (by decide)
  exact ⟨h.2.2.2.2.2.1, h.2.2.2.2.2.2.2⟩

/-! ## Claim C9 -/

/-- **C9** (corrected).  The original claim asserts that construction
establishes `tstep > 0`; in the source, `__init__` stores `tstep`
directly into `_tstep`, bypassing the validating setter, so a
container with non-positive `tstep` is constructible (see the
counterexample).  Amended statement proved here: assignment through
the `tstep` setter rejects every non-positive value with an error and
stores positive ones; `crop`, `resample`, `tmin` assignment, `data`
assignment and the `data` read never change `tstep` except `resample`,
which stores `1/r` and only succeeds when that is positive; but
construction stores the given `tstep` unvalidated. -/
theorem C9_tstep_positivity :
    (∀ (s : SourceTFR) (v : ℚ), v ≤ 0 →
      s.setTstep v = .error ".tstep must be greater than 0.") ∧
    (∀ (s : SourceTFR) (v : ℚ) (s' : SourceTFR),
      s.setTstep v = .ok s' → 0 < s'._tstep) ∧
    (∀ (s : SourceTFR) (t0 t1 : Option ℚ) (s' : SourceTFR),
      s.crop t0 t1 = .ok s' → s'._tstep = s._tstep) ∧
    (∀ (s : SourceTFR) (prim : Tensor → ℚ → ℚ → Tensor) (r : ℚ)
      (s' : SourceTFR), s.resample prim r = .ok s' →
      s'._tstep = 1 / r ∧ 0 < s'._tstep) ∧
    (∀ (s : SourceTFR) (v : ℚ), (s.setTmin v)._tstep = s._tstep) ∧
    (∀ (s : SourceTFR) (t : Tensor) (s' : SourceTFR),
      s.setData t = .ok s' → s'._tstep = s._tstep) ∧
    (∀ s : SourceTFR, ((s.dataRead).1)._tstep = s._tstep) ∧
    (∀ (dataArg : TFRData) (va : VertArg) (tmin tstep : ℚ)
      (dims : List String) (method : Option String) (s : SourceTFR),
      SourceTFR.init dataArg va tmin tstep dims method = .ok s →
      s._tstep = tstep) := by
  refine ⟨?_, ?_, ?_, ?_, ?_, ?_, ?_, ?_⟩
  · intro s v hv
    unfold SourceTFR.setTstep
    rw [if_pos ((qle_iff v 0).mpr hv)]
  · intro s v s' h
    obtain ⟨ht, hpos, _⟩ := setTstep_ok _ _ _ h
    rw [ht]; exact hpos
  · intro s t0 t1 s' h
    simp only [SourceTFR.crop] at h
    split at h
    · exact absurd h (by simp)
    · split at h
      · exact absurd h (by simp)
      · rename_i i hfi
        split at h
        · split at h
          · exact absurd h (by simp)
          · injection h with h
            subst h
            simp
        · split at h
          · rename_i s2 d heq
            split at h
            · exact absurd h (by simp)
            · have h4 := (setData_ok _ _ _ h).2.2.2
              have h5 := (dataRead_fst_fields (s.setTmin (s._times.getD i 0))).1
              rw [heq] at h5
              rw [h4, h5, setTmin_tstep]
          · exact absurd h (by simp)
  · intro s prim r s' h
    simp only [SourceTFR.resample] at h
    split at h
    · exact absurd h (by simp)
    · split at h
      · rename_i s1 d heq
        cases hsd : s1.setData (prim d r (qdiv 1 (s.removeKernelSensData)._tstep)) with
        | error e => rw [hsd] at h; exact absurd h (by simp [Except.bind])
        | ok s2 =>
          rw [hsd] at h
          simp only [Except.bind] at h
          split at h
          · exact absurd h (by simp)
          · obtain ⟨ht, hpos, _⟩ := setTstep_ok _ _ _ h
            rw [qdiv_eq] at ht hpos
            refine ⟨ht, ?_⟩
            rw [ht]
            exact hpos
      · exact absurd h (by simp)
  · intro s v
    simp
  · intro s t s' h
    exact (setData_ok _ _ _ h).2.2.2
  · intro s
    exact (dataRead_fst_fields s).1
  · intro dataArg va tmin tstep dims method s h
    simp only [SourceTFR.init] at h
    split at h
    · exact absurd h (by simp)
    · split at h
      · exact absurd h (by simp)
      · split at h
        · split at h
          · exact absurd h (by simp)
          · split at h
            · exact absurd h (by simp)
            · split at h
              · exact absurd h (by simp)
              · cases hpv : processVerts va with
                | error e => rw [hpv] at h; exact absurd h (by simp [Except.map])
                | ok pv =>
                  rw [hpv] at h
                  simp only [Except.map] at h
                  injection h with h
                  subst h
                  rfl
        · cases hpv : processVerts va with
          | error e => rw [hpv] at h; exact absurd h (by simp [Except.bind])
          | ok pv =>
            rw [hpv] at h
            simp only [Except.bind] at h
            split at h
            · exact absurd h (by simp)
            · split at h
              · exact absurd h (by simp)
              · split at h
                · exact absurd h (by simp)
                · injection h with h
                  subst h
                  rfl

/-- Counterexample to C9 as stated: construction with `tstep = -1`
succeeds and stores the non-positive value — no error is raised, so
construction does not establish the positivity invariant. -/
theorem C9_tstep_positivity_counterexample :
    (SourceTFR.init (.dense ⟨[2, 1, 3], [1, 2, 8, 3, 4, 18]⟩) exVertsX 0
        (mkRat (-1) 1) dimsDFT none).map (fun s => s._tstep) =
      .ok (mkRat (-1) 1) ∧
    (mkRat (-1) 1 : ℚ) ≤ 0 := by
  exact ⟨by decide, (qle_iff _ _).mp (by decide)⟩

/-- Witness for C9 at concrete inputs: the setter rejects `-1`, and a
concrete crop preserves `tstep`. -/
theorem C9_tstep_positivity_witness :
    exFact.setTstep (mkRat (-1) 1) = .error ".tstep must be greater than 0." ∧
    exCropped._tstep = exFact._tstep := by
  exact ⟨C9_tstep_positivity.1 exFact (mkRat (-1) 1) ((qle_iff _ _).mp (by decide)),
    C9_tstep_positivity.2.2.1 exFact (some 1) none exCropped (by decide)⟩

/-! ## Block-parser fold lemmas (for C6 and C10) -/

theorem startsWithL_append : ∀ (a b c : List Char),
    startsWithL (a ++ b) (a ++ c) = startsWithL b c := by
  intro a
  induction a with
  | nil => intro b c; rfl
  | cons x a ih =>
    intro b c
    show (x == x && startsWithL (a ++ b) (a ++ c)) = startsWithL b c
    rw [beq_self_eq_true, Bool.true_and, ih]

/-- A line that matches neither of `p`'s markers leaves a closed state
untouched. -/
theorem lineStep_closed (p : String) (acc : List Entry) (line : String)
    (hS : startsWithL (p ++ " START_LIST").toList line.toList = false)
    (hE : startsWithL (p ++ " END_LIST").toList line.toList = false) :
    lineStep p (false, acc) line = (false, acc) := by
  unfold lineStep
  rw [hS, hE]
  simp

/-- A line that matches neither marker: open state appends the line's
entry unless the line is the bare newline. -/
theorem lineStep_open (p : String) (acc : List Entry) (line : String)
    (hS : startsWithL (p ++ " START_LIST").toList line.toList = false)
    (hE : startsWithL (p ++ " END_LIST").toList line.toList = false) :
    lineStep p (true, acc) line =
      (true, if line != "\n" then acc ++ [mkEntry line] else acc) := by
  unfold lineStep
  rw [hS, hE]
  by_cases hb : line = "\n"
  · subst hb; simp
  · simp [hb]

theorem startsWithL_self_append (p q r : String) :
    startsWithL (p ++ q).toList (p ++ r).toList = startsWithL q.toList r.toList := by
  show startsWithL (p ++ q).data (p ++ r).data = _
  rw [String.data_append, String.data_append, startsWithL_append]
  rfl

/-- The START marker line: turns a closed state on; does not match the
END marker and is itself never collected. -/
theorem lineStep_start (p : String) (acc : List Entry) :
    lineStep p (false, acc) (p ++ " START_LIST\n") = (true, acc) := by
  unfold lineStep
  rw [startsWithL_self_append, startsWithL_self_append,
    show startsWithL " END_LIST".toList " START_LIST\n".toList = false from by decide,
    show startsWithL " START_LIST".toList " START_LIST\n".toList = true from by decide]
  simp

/-- The END marker line: turns an open state off; the marker line is
not collected. -/
theorem lineStep_end (p : String) (acc : List Entry) :
    lineStep p (true, acc) (p ++ " END_LIST\n") = (false, acc) := by
  unfold lineStep
  rw [startsWithL_self_append, startsWithL_self_append,
    show startsWithL " END_LIST".toList " END_LIST\n".toList = true from by decide,
    show startsWithL " START_LIST".toList " END_LIST\n".toList = false from by decide]
  simp

theorem foldl_closed (p : String) : ∀ (lines : List String) (acc : List Entry),
    (∀ l ∈ lines, startsWithL (p ++ " START_LIST").toList l.toList = false ∧
      startsWithL (p ++ " END_LIST").toList l.toList = false) →
    lines.foldl (lineStep p) (false, acc) = (false, acc) := by
  intro lines
  induction lines with
  | nil => intro acc _; rfl
  | cons l rest ih =>
    intro acc h
    have h1 := h l (by simp)
    rw [List.foldl_cons, lineStep_closed p acc l h1.1 h1.2]
    exact ih acc (fun x hx => h x (by simp [hx]))

theorem foldl_open (p : String) : ∀ (lines : List String) (acc : List Entry),
    (∀ l ∈ lines, startsWithL (p ++ " START_LIST").toList l.toList = false ∧
      startsWithL (p ++ " END_LIST").toList l.toList = false) →
    lines.foldl (lineStep p) (true, acc) =
      (true, acc ++ (lines.filter (fun l => l != "\n")).map mkEntry) := by
  intro lines
  induction lines with
  | nil => intro acc _; simp
  | cons l rest ih =>
    intro acc h
    have h1 := h l (by simp)
    rw [List.foldl_cons, lineStep_open p acc l h1.1 h1.2]
    by_cases hb : l = "\n"
    · subst hb
      rw [if_neg (by simp)]
      rw [ih acc (fun x hx => h x (by simp [hx]))]
      simp
    · rw [if_pos (by simp [hb])]
      rw [ih (acc ++ [mkEntry l]) (fun x hx => h x (by simp [hx]))]
      simp [hb]

/-- The block-extraction lemma: on a file consisting of `pre`, the
START marker, `body`, the END marker and `post`, with no other line of
the file matching either marker, the collected entries for `p` are
exactly the non-blank body lines, stripped and tab-split, in order. -/
theorem readCurryLinesOne_block (p : String) (pre body post : List String)
    (hpre : ∀ l ∈ pre, startsWithL (p ++ " START_LIST").toList l.toList = false ∧
      startsWithL (p ++ " END_LIST").toList l.toList = false)
    (hbody : ∀ l ∈ body, startsWithL (p ++ " START_LIST").toList l.toList = false ∧
      startsWithL (p ++ " END_LIST").toList l.toList = false)
    (hpost : ∀ l ∈ post, startsWithL (p ++ " START_LIST").toList l.toList = false ∧
      startsWithL (p ++ " END_LIST").toList l.toList = false) :
    readCurryLinesOne
        (pre ++ [p ++ " START_LIST\n"] ++ body ++ [p ++ " END_LIST\n"] ++ post) p =
      (body.filter (fun l => l != "\n")).map mkEntry := by
  unfold readCurryLinesOne
  rw [List.foldl_append, List.foldl_append, List.foldl_append, List.foldl_append]
  rw [foldl_closed p pre [] hpre]
  rw [show List.foldl (lineStep p) (false, ([] : List Entry)) [p ++ " START_LIST\n"] =
    (true, []) from by rw [List.foldl_cons, lineStep_start]; rfl]
  rw [foldl_open p body [] hbody]
  rw [show List.foldl (lineStep p)
      (true, ([] : List Entry) ++ (body.filter (fun l => l != "\n")).map mkEntry)
      [p ++ " END_LIST\n"] =
    (false, (body.filter (fun l => l != "\n")).map mkEntry) from by
      rw [List.foldl_cons, List.nil_append, lineStep_end]; rfl]
  rw [foldl_closed p post _ hpost]

/-! ## Claim C6 -/

/-- **C6** (confirmed).  For every file and every pattern list, the
block parser returns, for each pattern, exactly the non-blank lines
strictly between that pattern's START_LIST and END_LIST marker lines
(markers excluded), in file order, each stripped of its terminator and
tab-split into fields exactly when a tab is present (`mkEntry`).
"Blank" is the bare newline line, the `line != "\n"` test of the
source.  The file shape is expressed as `pre / marker / body / marker
/ post` with no stray marker-matching lines. -/
theorem C6_block_extraction
    (p : String) (ps : List String) (pre body post : List String)
    (hp : p ∈ ps)
    (hpre : ∀ l ∈ pre, startsWithL (p ++ " START_LIST").toList l.toList = false ∧
      startsWithL (p ++ " END_LIST").toList l.toList = false)
    (hbody : ∀ l ∈ body, startsWithL (p ++ " START_LIST").toList l.toList = false ∧
      startsWithL (p ++ " END_LIST").toList l.toList = false)
    (hpost : ∀ l ∈ post, startsWithL (p ++ " START_LIST").toList l.toList = false ∧
      startsWithL (p ++ " END_LIST").toList l.toList = false) :
    readCurryLinesOne
        (pre ++ [p ++ " START_LIST\n"] ++ body ++ [p ++ " END_LIST\n"] ++ post) p =
      (body.filter (fun l => l != "\n")).map mkEntry ∧
    (p, (body.filter (fun l => l != "\n")).map mkEntry) ∈
      readCurryLines
        (pre ++ [p ++ " START_LIST\n"] ++ body ++ [p ++ " END_LIST\n"] ++ post) ps := by
  have h := readCurryLinesOne_block p pre body post hpre hbody hpost
  refine ⟨h, ?_⟩
  unfold readCurryLines
  exact List.mem_map.mpr ⟨p, hp, by rw [h]⟩

/-- Witness for C6: the concrete label file with one `LABELS_MAG1`
block holding a plain line, a blank line (skipped) and a tab-split
line. -/
theorem C6_block_extraction_witness :
    readCurryLinesOne exLabelFile "LABELS_MAG1" =
      [Entry.str "a", Entry.fields ["b", "c"]] ∧
    ("LABELS_MAG1", [Entry.str "a", Entry.fields ["b", "c"]]) ∈
      readCurryLines exLabelFile ["LABELS_MAG1"] := by
  have heq : exLabelFile = ["junk\n"] ++ ["LABELS_MAG1" ++ " START_LIST\n"] ++
      ["a\n", "\n", "b\tc\n"] ++ ["LABELS_MAG1" ++ " END_LIST\n"] ++ ["tail\n"] := by
    decide
  have h := C6_block_extraction "LABELS_MAG1" ["LABELS_MAG1"] ["junk\n"]
    ["a\n", "\n", "b\tc\n"] ["tail\n"] (by decide) (by decide) (by decide) (by decide)
  constructor
  · rw [heq, h.1]
    decide
  · rw [heq]
    have h2 := h.2
    have : (["a\n", "\n", "b\tc\n"].filter (fun l => l != "\n")).map mkEntry =
        [Entry.str "a", Entry.fields ["b", "c"]] := by decide
    rw [this] at h2
    exact h2

/-! ## Parameter-scan characterization (for C7) -/

theorem find?_congr {α : Type} : ∀ (xs : List α) (f g : α → Bool),
    (∀ x ∈ xs, f x = g x) → xs.find? f = xs.find? g := by
  intro xs
  induction xs with
  | nil => intro f g _; rfl
  | cons x rest ih =>
    intro f g h
    have hx := h x (by simp)
    rw [List.find?_cons, List.find?_cons, hx]
    split
    · rfl
    · exact ih f g (fun y hy => h y (by simp [hy]))

theorem lookupD_insert (k v key : String) (d : Dict) :
    (lookupD (dictInsert k v d) key).isSome =
      (k == key || (lookupD d key).isSome) := by
  unfold dictInsert lookupD
  rw [List.find?_cons]
  by_cases hk : (k == key) = true
  · simp [hk]
  · have hkk : (k == key) = false := by simpa using hk
    simp [hkk]

/-- Characterization of the scan on device-marker-free, cleanly
splitting files: it completes, and the dictionary holds a key exactly
when the initial dictionary held it or some line adds it. -/
theorem scanParams_clean : ∀ (lines : List String) (d : Dict),
    (∀ l ∈ lines, countDevice l = 0 ∧ wellScanB l = true) →
    ∃ d', scanParams lines d = .ok d' ∧
      ∀ key, (lookupD d' key).isSome = true ↔
        ((lookupD d key).isSome = true ∨ ∃ l ∈ lines, addsKeyB l key = true) := by
  intro lines
  induction lines with
  | nil =>
    intro d _
    exact ⟨d, rfl, by simp⟩
  | cons l rest ih =>
    intro d h
    have hl := h l (by simp)
    have hrest : ∀ x ∈ rest, countDevice x = 0 ∧ wellScanB x = true :=
      fun x hx => h x (by simp [hx])
    by_cases hcv : containsVar l
    · -- the line is scanned; it splits into exactly [k, v]
      have hws := hl.2
      rw [wellScanB, hcv] at hws
      simp only [Bool.not_true, Bool.false_or, beq_iff_eq] at hws
      obtain ⟨k, v, hkv⟩ : ∃ k v, splitEq (cleanLine l) = [k, v] := by
        cases hsp : splitEq (cleanLine l) with
        | nil => rw [hsp] at hws; simp at hws
        | cons a tl =>
          cases tl with
          | nil => rw [hsp] at hws; simp at hws
          | cons b tl2 =>
            cases tl2 with
            | nil => exact ⟨a, b, rfl⟩
            | cons c tl3 => rw [hsp] at hws; simp at hws
      obtain ⟨d', hscan, hiff⟩ := ih (dictInsert (normKey k) v d) hrest
      refine ⟨d', ?_, ?_⟩
      · show scanParamsAux (rest.length + 1) (l :: rest) d = .ok d'
        rw [scanParamsAux]
        have hstep : scanStep d l = .ok (dictInsert (normKey k) v d) := by
          unfold scanStep
          rw [if_pos hcv, hkv]
        rw [hstep, hl.1, List.drop_zero]
        exact hscan
      · intro key
        rw [hiff key, lookupD_insert]
        have hadds : addsKeyB l key = (normKey k == key) := by
          unfold addsKeyB
          rw [hcv, hkv]
          simp
        constructor
        · rintro (hor | hex)
          · rw [Bool.or_eq_true] at hor
            rcases hor with heq | hd0
            · exact Or.inr ⟨l, by simp, by rw [hadds]; exact heq⟩
            · exact Or.inl hd0
          · obtain ⟨x, hx, hax⟩ := hex
            exact Or.inr ⟨x, by simp [hx], hax⟩
        · rintro (hd0 | ⟨x, hx, hax⟩)
          · exact Or.inl (by rw [Bool.or_eq_true]; exact Or.inr hd0)
          · rcases List.mem_cons.mp hx with rfl | hx'
            · rw [hadds] at hax
              exact Or.inl (by rw [Bool.or_eq_true]; exact Or.inl hax)
            · exact Or.inr ⟨x, hx', hax⟩
    · -- the line contains no key spelling and is skipped
      obtain ⟨d', hscan, hiff⟩ := ih d hrest
      refine ⟨d', ?_, ?_⟩
      · show scanParamsAux (rest.length + 1) (l :: rest) d = .ok d'
        rw [scanParamsAux]
        have hstep : scanStep d l = .ok d := by
          unfold scanStep
          rw [if_neg (by simp [hcv])]
        rw [hstep, hl.1, List.drop_zero]
        exact hscan
      · intro key
        rw [hiff key]
        have hadds : addsKeyB l key = false := by
          unfold addsKeyB
          rw [Bool.and_eq_false_iff]
          exact Or.inl (by simpa using hcv)
        constructor
        · rintro (hd0 | ⟨x, hx, hax⟩)
          · exact Or.inl hd0
          · exact Or.inr ⟨x, by simp [hx], hax⟩
        · rintro (hd0 | ⟨x, hx, hax⟩)
          · exact Or.inl hd0
          · rcases List.mem_cons.mp hx with rfl | hx'
            · rw [hadds] at hax; exact absurd hax (by simp)
            · exact Or.inr ⟨x, hx', hax⟩

/-! ## Claim C7 -/

/-- **C7** (corrected).  The original claim quantifies over files in
which some required parameter "appears under neither of its two
accepted key spellings"; because a key spelling occurring anywhere in
a line (for instance inside the value of a different key=value line
whose key part normalizes to the required key) makes the scan insert
the required key, such a file can pass the required-key check and then
fail with a malformed-value error instead — see the counterexample.
Amended statement proved here: for every device-marker-free parameter
file whose scanned lines each split into exactly one key=value pair,
if some required parameter's normalized key is added by no line, then
metadata construction fails after the full scan with a
missing-variable error naming the first such required key (in the
check order NumSamples, NumChannels, NumTrials, SampleFreqHz,
TriggerOffsetUsec, DataFormat, SampleTimeUsec), and no metadata is
returned. -/
theorem C7_missing_required
    (lines : List String) (v0 : String)
    (hclean : ∀ l ∈ lines, countDevice l = 0 ∧ wellScanB l = true)
    (hfind : requiredVars.find?
        (fun v => lines.all (fun l => !(addsKeyB l (toLowerStr v)))) = some v0) :
    readCurryInfoParams lines = .error (.missingVariable v0) := by
  obtain ⟨d', hscan, hiff⟩ := scanParams_clean lines [] hclean
  have hfind' : requiredVars.find?
      (fun v => (lookupD d' (toLowerStr v)).isNone) = some v0 := by
    rw [find?_congr requiredVars _
      (fun v => lines.all (fun l => !(addsKeyB l (toLowerStr v)))) ?_]
    · exact hfind
    · intro v _
      cases hx : lookupD d' (toLowerStr v) with
      | some val =>
        have hsome : (lookupD d' (toLowerStr v)).isSome = true := by
          rw [hx]; rfl
        rcases (hiff (toLowerStr v)).mp hsome with h0 | ⟨l, hl, ha⟩
        · exact absurd h0 (by simp [lookupD])
        · simp only [Option.isNone_some]
          symm
          rw [List.all_eq_false]
          exact ⟨l, hl, by simp [ha]⟩
      | none =>
        simp only [Option.isNone_none]
        symm
        rw [List.all_eq_true]
        intro l hl
        rw [Bool.not_eq_true']
        by_contra hc
        rw [Bool.not_eq_false] at hc
        have : (lookupD d' (toLowerStr v)).isSome = true :=
          (hiff (toLowerStr v)).mpr (Or.inr ⟨l, hl, hc⟩)
        rw [hx] at this
        exact absurd this (by simp)
  unfold readCurryInfoParams
  rw [hscan]
  simp only []
  rw [hfind']

/-- Counterexample to C7 as stated: in `exParamSpoof` no line contains
either spelling of the sample-count key, yet the line
`Num_Samples=NumTrials` passes the substring test through `NumTrials`
and normalizes its key part to `numsamples`, so the required-key check
passes and construction fails with a malformed-value error — not a
missing-variable error naming the absent key. -/
theorem C7_missing_required_counterexample :
    (exParamSpoof.all (fun l => !(containsSub l.toList "NumSamples".toList) &&
      !(containsSub l.toList "NUM_SAMPLES".toList))) = true ∧
    readCurryInfoParams exParamSpoof = .error (.malformedValue "NumTrials") := by
  exact ⟨by decide, by decide⟩

/-- Witness for C7 at the concrete file `exParamNoNT`, whose first
absent required parameter is `NumTrials`. -/
theorem C7_missing_required_witness :
    readCurryInfoParams exParamNoNT = .error (.missingVariable "NumTrials") :=
  C7_missing_required exParamNoNT "NumTrials" (by decide) (by decide)

/-! ## Claim C8 -/

/-- **C8** (corrected).  The original claim has the parameter file
contain no SampleFreqHz-style key at all; but SampleFreqHz is one of
the seven required keys, so such a file fails the required-key check
with a missing-variable error and no rate is derived — see the
counterexample.  Amended statement proved here: a parameter file whose
SampleFreqHz entry is 0 and whose SampleTimeUsec entry is 10000 (a
1e-2-second step) parses successfully with derived sample rate exactly
100 Hz. -/
theorem C8_derived_rate :
    (readCurryInfoParams exParamZeroSF).map CurryParams.sfreq = .ok 100 ∧
    (readCurryInfoParams exParamZeroSF).map CurryParams.time_step =
      .ok (mkRat 1 100) := by
  exact ⟨by decide, by decide⟩

/-- Counterexample to C8 as stated: the same file with the
SampleFreqHz line removed entirely (neither spelling occurs) fails
with the missing-variable error naming SampleFreqHz instead of
succeeding with a derived rate. -/
theorem C8_derived_rate_counterexample :
    (exParamNoSF.all (fun l => !(containsSub l.toList "SampleFreqHz".toList) &&
      !(containsSub l.toList "SAMPLE_FREQ_HZ".toList))) = true ∧
    readCurryInfoParams exParamNoSF = .error (.missingVariable "SampleFreqHz") := by
  exact ⟨by decide, by decide⟩

/-! ## Claim C10 -/

theorem take3_getLastD (r : List ℤ) (h : 3 ≤ r.length) :
    (r.take 3).getLastD 0 = r.getD 2 0 := by
  match r, h with
  | a :: b :: c :: rest, _ => rfl

/-- **C10** (confirmed).  For every event file whose NUMBER_LIST block
consists of tab-split rows of equal length at least 3 with integer
fields, `read_events_curry` returns, with `event_ids` given, exactly
the rows restricted to their first three columns, in file order, whose
third-column event code is a member of `event_ids`; with `event_ids`
None, all rows are returned unfiltered. -/
theorem C10_read_events
    (pre body post : List String) (rows : List (List ℤ)) (ids : List ℤ)
    (hpre : ∀ l ∈ pre,
      startsWithL ("NUMBER_LIST" ++ " START_LIST").toList l.toList = false ∧
      startsWithL ("NUMBER_LIST" ++ " END_LIST").toList l.toList = false)
    (hbody : ∀ l ∈ body,
      startsWithL ("NUMBER_LIST" ++ " START_LIST").toList l.toList = false ∧
      startsWithL ("NUMBER_LIST" ++ " END_LIST").toList l.toList = false)
    (hpost : ∀ l ∈ post,
      startsWithL ("NUMBER_LIST" ++ " START_LIST").toList l.toList = false ∧
      startsWithL ("NUMBER_LIST" ++ " END_LIST").toList l.toList = false)
    (hnb : ∀ l ∈ body, l ≠ "\n")
    (htm : toIntMatrix (body.map mkEntry) = some rows)
    (hlen3 : ∀ r ∈ rows, 3 ≤ r.length) :
    readEventsCurry (pre ++ ["NUMBER_LIST" ++ " START_LIST\n"] ++ body ++
        ["NUMBER_LIST" ++ " END_LIST\n"] ++ post) none =
      .ok (rows.map (fun r => r.take 3)) ∧
    readEventsCurry (pre ++ ["NUMBER_LIST" ++ " START_LIST\n"] ++ body ++
        ["NUMBER_LIST" ++ " END_LIST\n"] ++ post) (some ids) =
      .ok ((rows.filter (fun r => ids.contains (r.getD 2 0))).map
        (fun r => r.take 3)) := by
  have hblock := readCurryLinesOne_block "NUMBER_LIST" pre body post hpre hbody hpost
  have hfilter : body.filter (fun l => l != "\n") = body :=
    List.filter_eq_self.mpr (fun l hl => by simpa using hnb l hl)
  rw [hfilter] at hblock
  constructor
  · unfold readEventsCurry
    rw [hblock, htm]
  · unfold readEventsCurry
    rw [hblock, htm]
    simp only []
    congr 1
    rw [List.filter_map]
    congr 1
    apply List.filter_congr
    intro r hr
    simp only [Function.comp]
    rw [take3_getLastD r (hlen3 r hr)]

/-- Witness for C10 at the concrete event file `exEventFile` with
rows `[1,0,5,9]` and `[2,0,7,9]` and `event_ids = [5]`. -/
theorem C10_read_events_witness :
    readEventsCurry exEventFile none = .ok [[1, 0, 5], [2, 0, 7]] ∧
    readEventsCurry exEventFile (some [5]) = .ok [[1, 0, 5]] := by
  have heq : exEventFile = ["ignored header\n"] ++
      ["NUMBER_LIST" ++ " START_LIST\n"] ++ ["1\t0\t5\t9\n", "2\t0\t7\t9\n"] ++
      ["NUMBER_LIST" ++ " END_LIST\n"] ++ ["trailer\n"] := by decide
  have h := C10_read_events ["ignored header\n"] ["1\t0\t5\t9\n", "2\t0\t7\t9\n"]
    ["trailer\n"] [[1, 0, 5, 9], [2, 0, 7, 9]] [5]
    (by decide) (by decide) (by decide) (by decide) (by decide) (by decide)
  constructor
  · rw [heq, h.1]
    decide
  · rw [heq, h.2]
    decide

end MneSpec